import Mathlib

/-!
Shallow embedding of the agent movement / grid occupancy simulation core of
the butiran-frontend repository (files 25f53.js, 25f63.js, 25g32.js), together
with proofs about its behavior.

Modelling conventions:
* the JS grid `world` (accessed as `world[y][x]`) becomes a `List (List Nat)`;
* agents `[x, y, t]` become triples `(x, y, ty) : Int × Int × Nat`;
* the JS floating point probabilities become rationals `ℚ`, and the call to
  `Math.random()` becomes an explicit draw parameter (one draw per agent,
  supplied by a stream `us : Nat → ℚ`);
* a JS expression that would throw (reading a row at an out-of-range row
  index, destructuring the `undefined` returned by a fallen-through
  `generateDirection`) is modelled by an `Except` error carrying the values
  the module-level variables hold at the moment of the throw.
-/

namespace Butiran

/-- Grid of cell values, indexed as world[y][x] like the JS `world` array. -/
abbrev World := List (List Nat)

/-- Agent record [x, y, type] from the JS `agents` array. -/
abbrev Agent := Int × Int × Nat

/-- Movement probability matrix: list of rows of rationals. -/
abbrev MPMat := List (List ℚ)

/-- Movement probability matrix table, the JS object `mpm` keyed by agent
type; `none` models a missing key (JS `undefined`). -/
abbrev MPM := Nat → Option MPMat

/-- Row lookup world[y]: `none` when the row index is out of range
(JS `undefined`). -/
def rowAt (w : World) (y : Int) : Option (List Nat) :=
  if y < 0 then none else w.get? y.toNat

/-- Entry lookup row[x]: `none` when the column index is out of range
(JS `undefined`). -/
def entryAt (row : List Nat) (x : Int) : Option Nat :=
  if x < 0 then none else row.get? x.toNat

/-- Reading world[y][x] as the JS code does: when world[y] is `undefined`
the JS access `world[y][x]` throws, modelled as an error; when the row
exists but the column is out of range, JS yields `undefined`, modelled as
`.ok none`. -/
def readCell (w : World) (x y : Int) : Except Unit (Option Nat) :=
  match rowAt w y with
  | none => .error ()
  | some row => .ok (entryAt row x)

/-- Total cell lookup used for stating invariants; returns 0 for any access
that is not an in-range numeric cell. -/
def cell (w : World) (x y : Int) : Nat :=
  match readCell w x y with
  | .ok (some v) => v
  | _ => 0

/-- Writing world[y][x] = v; a write at an out-of-range index is a no-op in
this model (all writes performed by the simulation under its preconditions
are in range). -/
def setCell (w : World) (x y : Int) (v : Nat) : World :=
  if y < 0 ∨ x < 0 then w
  else w.set y.toNat ((w.getD y.toNat []).set x.toNat v)

/-- Inner column scan of generateDirection (25f53.js): walks one matrix row
with running mass `y`, returning the direction (c-1, r-1) at the first entry
where the accumulated mass strictly exceeds the draw `u`, or the final
accumulated mass if the row is exhausted. -/
def gdRow (u : ℚ) (r : Nat) : List ℚ → Nat → ℚ → Sum ℚ (Int × Int)
  | [], _, y => .inl y
  | p :: rest, c, y =>
    if y + p > u then .inr ((c : Int) - 1, (r : Int) - 1)
    else gdRow u r rest (c + 1) (y + p)

/-- Outer row scan of generateDirection (25f53.js), carrying the running
mass across rows. -/
def gdRows (u : ℚ) : List (List ℚ) → Nat → ℚ → Option (Int × Int)
  | [], _, _ => none
  | row :: rest, r, y =>
    match gdRow u r row 0 y with
    | .inr d => some d
    | .inl y2 => gdRows u rest (r + 1) y2

/-- Embedding of generateDirection(m) from 25f53.js with the random draw
made an explicit parameter `u` (the JS draws `Math.random()`, uniform in
[0,1)). The function scans the matrix in row-major order accumulating the
mass and returns the first direction whose running total strictly exceeds
`u`; when no entry does, the JS function falls off the end and returns
`undefined`, modelled as `none`. (The JS loop bounds use m.length and
m[0].length; the embedding walks each row fully, which agrees on the
rectangular matrices the program uses.) -/
def generateDirection (m : MPMat) (u : ℚ) : Option (Int × Int) :=
  gdRows u m 0 0

/-- Module-level simulation state of 25f53.js: the grid, the agent
registry, and the tick counter `t`. -/
structure SimState where
  world : World
  agents : List Agent
  t : Int
deriving Repr, DecidableEq

/-- Per-agent loop of simulate() in 25f53.js (the identical loop also
appears in simulate_v0_2() of 25g32.js). Arguments: draw stream `us`, next
draw index `i`, current grid `w`, accumulator `b` (the JS array pushed
into), remaining agents. An error carries the grid as already mutated at
the moment the JS code would throw -- either because `mpm[t]` is
`undefined` (generateDirection then throws on `undefined.length`), or
because the destructuring of a fallen-through generateDirection result
throws, or because a grid row access is out of range. A source-cell read
yielding `undefined` with the row present (unreachable for in-bounds
agents) is also modelled as an error. -/
def stepLoop (mpm : MPM) (us : Nat → ℚ) :
    Nat → World → List Agent → List Agent → Except World (World × List Agent)
  | _, w, b, [] => .ok (w, b)
  | i, w, b, (x, y, ty) :: rest =>
    match mpm ty with
    | none => .error w
    | some m =>
      match generateDirection m (us i) with
      | none => .error w
      | some (dx, dy) =>
        let x2 := x + dx
        let y2 := y + dy
        match readCell w x2 y2 with
        | .error _ => .error w
        | .ok v =>
          if v = some 0 then
            match readCell w x y with
            | .error _ => .error w
            | .ok none => .error w
            | .ok (some sv) =>
              stepLoop mpm us (i + 1) (setCell (setCell w x2 y2 sv) x y 0)
                (b ++ [(x2, y2, ty)]) rest
          else
            stepLoop mpm us (i + 1) w (b ++ [(x, y, ty)]) rest

/-- One call to simulate() from 25f53.js, restricted to its state effect
(the DOM writes are output notifications). On success the registry is
replaced by the rebuilt list and `t` is incremented; on a throw the
`Except` error carries the grid at the moment of the throw (the
assignments `agents = b` and `t += 1` never execute). -/
def simulate (mpm : MPM) (us : Nat → ℚ) (s : SimState) : Except World SimState :=
  match stepLoop mpm us 0 s.world [] s.agents with
  | .error w => .error w
  | .ok (w, b) => .ok ⟨w, b, s.t + 1⟩

/-- Observable effect of one simulate() call on the JS module-level
variables: the Bool records whether the call completed without throwing;
on a throw, `world` keeps the writes already made, while `agents` and `t`
keep their previous values. -/
def simulateJS (mpm : MPM) (us : Nat → ℚ) (s : SimState) : Bool × SimState :=
  match simulate mpm us s with
  | .ok s2 => (true, s2)
  | .error w => (false, ⟨w, s.agents, s.t⟩)

/-- Embedding of simulate_v0_2() from 25g32.js: its per-agent loop is
textually identical to the loop of simulate() in 25f53.js, and its extra
`tend` block only disables DOM buttons and clears the timer, so its effect
on world/agents/t coincides with simulate(). -/
def simulate_v0_2 (mpm : MPM) (us : Nat → ℚ) (s : SimState) : Except World SimState :=
  simulate mpm us s

/-- n successive simulate() calls; call k draws from the stream `uss k`. -/
def runN (mpm : MPM) (uss : Nat → Nat → ℚ) : Nat → SimState → Except World SimState
  | 0, s => .ok s
  | n + 1, s =>
    match runN mpm uss n s with
    | .error w => .error w
    | .ok s1 => simulate mpm (uss n) s1

/-- Module-level simulation state of 25f63.js: the grid, the agent
registry, the per-filter crossing counters `filterCount`, and the tick
counter `t`. The filter configuration itself (`filterPost`, `filterType`)
is fixed for a run and passed as parameters to the step functions. -/
structure Sim2State where
  world : World
  agents : List Agent
  filterCount : List Nat
  t : Int
deriving Repr, DecidableEq

/-- Inner filter loop of simulate2() in 25f63.js: after a successful move
to (x2, y2), iterate f over the filter positions; whenever x2 equals
filterPost[f], increment filterCount[f]; when additionally the agent type
equals filterType[f], pop the just-pushed record from the accumulator and
clear the destination cell. Arguments thread the remaining positions, the
current index f, the counters, the grid and the accumulator. (JS reads
filterType[f] as `undefined` past the end of the list, which compares
unequal to any type, matching `get?` returning `none`; a counter increment
past the end of filterCount, unreachable for the equal-length lists the
program builds, is a no-op in this model.) -/
def filterLoop (x2 y2 : Int) (ty : Nat) (filterType : List Nat) :
    List Int → Nat → List Nat → World → List Agent → List Nat × World × List Agent
  | [], _, cnt, w, b => (cnt, w, b)
  | p :: ps, f, cnt, w, b =>
    if x2 = p then
      let cnt1 := cnt.set f (cnt.getD f 0 + 1)
      if filterType.get? f = some ty then
        filterLoop x2 y2 ty filterType ps (f + 1) cnt1 (setCell w x2 y2 0) b.dropLast
      else
        filterLoop x2 y2 ty filterType ps (f + 1) cnt1 w b
    else
      filterLoop x2 y2 ty filterType ps (f + 1) cnt w b

/-- Per-agent loop of simulate2() in 25f63.js: identical to the loop of
simulate() except that after a successful move the filter loop runs on the
destination. Errors carry the grid and counters at the moment of the
throw. -/
def stepLoop2 (mpm : MPM) (filterPost : List Int) (filterType : List Nat) (us : Nat → ℚ) :
    Nat → World → List Nat → List Agent → List Agent →
    Except (World × List Nat) (World × List Nat × List Agent)
  | _, w, cnt, b, [] => .ok (w, cnt, b)
  | i, w, cnt, b, (x, y, ty) :: rest =>
    match mpm ty with
    | none => .error (w, cnt)
    | some m =>
      match generateDirection m (us i) with
      | none => .error (w, cnt)
      | some (dx, dy) =>
        let x2 := x + dx
        let y2 := y + dy
        match readCell w x2 y2 with
        | .error _ => .error (w, cnt)
        | .ok v =>
          if v = some 0 then
            match readCell w x y with
            | .error _ => .error (w, cnt)
            | .ok none => .error (w, cnt)
            | .ok (some sv) =>
              let w1 := setCell (setCell w x2 y2 sv) x y 0
              let r := filterLoop x2 y2 ty filterType filterPost 0 cnt w1 (b ++ [(x2, y2, ty)])
              stepLoop2 mpm filterPost filterType us (i + 1) r.2.1 r.1 r.2.2 rest
          else
            stepLoop2 mpm filterPost filterType us (i + 1) w cnt (b ++ [(x, y, ty)]) rest

/-- One call to simulate2() from 25f63.js, restricted to its state effect
(the DOM bar-chart updates are output notifications). -/
def simulate2 (mpm : MPM) (filterPost : List Int) (filterType : List Nat) (us : Nat → ℚ)
    (s : Sim2State) : Except (World × List Nat) Sim2State :=
  match stepLoop2 mpm filterPost filterType us 0 s.world s.filterCount [] s.agents with
  | .error e => .error e
  | .ok (w, cnt, b) => .ok ⟨w, b, cnt, s.t + 1⟩

/-- n successive simulate2() calls; call k draws from the stream `uss k`. -/
def run2N (mpm : MPM) (filterPost : List Int) (filterType : List Nat) (uss : Nat → Nat → ℚ) :
    Nat → Sim2State → Except (World × List Nat) Sim2State
  | 0, s => .ok s
  | n + 1, s =>
    match run2N mpm filterPost filterType uss n s with
    | .error e => .error e
    | .ok s1 => simulate2 mpm filterPost filterType (uss n) s1

/-! Invariant vocabulary: well-formed configurations and the grid/registry
synchronization invariant. The wall/filter cell codes are abstracted as a
predicate `wall : Nat → Bool` on cell values (the program treats the
two-digit codes as opaque), with `wall 0 = false` since 0 is the empty
cell. -/

/-- Number of registry entries positioned at (x, y). -/
def countAt (l : List Agent) (x y : Int) : Nat :=
  (l.filter fun a => decide (a.1 = x ∧ a.2.1 = y)).length

/-- The grid is rectangular with row length W. -/
def Rect (w : World) (W : Nat) : Prop := ∀ row ∈ w, row.length = W

/-- Coordinate pair lies on the outer border of a W×H grid. -/
def OnBorder (W H : Nat) (x y : Nat) : Prop :=
  x = 0 ∨ x = W - 1 ∨ y = 0 ∨ y = H - 1

/-- Every border cell of the grid holds a wall code. -/
def BorderWalled (wall : Nat → Bool) (w : World) (W : Nat) : Prop :=
  ∀ x, x < W → ∀ y, y < w.length → OnBorder W w.length x y →
    wall (cell w (x : Int) (y : Int)) = true

/-- Position strictly inside the border of a W×H grid. -/
def Interior (W H : Nat) (x y : Int) : Prop :=
  0 < x ∧ x < (W : Int) - 1 ∧ 0 < y ∧ y < (H : Int) - 1

/-- Every agent sits strictly inside the border, has a nonzero non-wall
type code, and its type has a movement probability matrix. -/
def AgentsOk (wall : Nat → Bool) (mpm : MPM) (W H : Nat) (l : List Agent) : Prop :=
  ∀ a ∈ l, Interior W H a.1 a.2.1 ∧ a.2.2 ≠ 0 ∧ wall a.2.2 = false ∧
    (mpm a.2.2).isSome = true

/-- Registry-to-grid direction of the sync invariant: the cell under every
agent holds exactly that agent's type code. -/
def Sync1 (w : World) (l : List Agent) : Prop :=
  ∀ a ∈ l, cell w a.1 a.2.1 = a.2.2

/-- Grid-to-registry direction of the sync invariant: every nonzero
non-wall cell is occupied by exactly one registry entry. -/
def Sync2 (wall : Nat → Bool) (w : World) (W : Nat) (l : List Agent) : Prop :=
  ∀ x, x < W → ∀ y, y < w.length →
    cell w (x : Int) (y : Int) ≠ 0 → wall (cell w (x : Int) (y : Int)) = false →
    countAt l (x : Int) (y : Int) = 1

/-- Well-formedness invariant of a configuration: rectangular grid, fully
walled border, agents interior with known types, and the two sync
directions. -/
def Inv (wall : Nat → Bool) (mpm : MPM) (W : Nat) (w : World) (l : List Agent) : Prop :=
  Rect w W ∧ BorderWalled wall w W ∧ AgentsOk wall mpm W w.length l ∧
    Sync1 w l ∧ Sync2 wall w W l

/-- Conclusion form of the grid/registry sync claim: every registry entry
matches its grid cell, and every nonzero non-wall cell has exactly one
registry entry there, of exactly that type. -/
def SyncInv (wall : Nat → Bool) (W : Nat) (w : World) (l : List Agent) : Prop :=
  (∀ a ∈ l, cell w a.1 a.2.1 = a.2.2) ∧
  ∀ x, x < W → ∀ y, y < w.length →
    cell w (x : Int) (y : Int) ≠ 0 → wall (cell w (x : Int) (y : Int)) = false →
    countAt l (x : Int) (y : Int) = 1 ∧
    ∀ a ∈ l, a.1 = (x : Int) → a.2.1 = (y : Int) → a.2.2 = cell w (x : Int) (y : Int)

/-- In-bounds coordinates for a rectangular W-wide grid. -/
def InB (w : World) (W : Nat) (x y : Int) : Prop :=
  0 ≤ x ∧ x < (W : Int) ∧ 0 ≤ y ∧ y < (w.length : Int)

instance instDecRect (w : World) (W : Nat) : Decidable (Rect w W) := by
  unfold Rect; infer_instance

instance instDecBorderWalled (wall : Nat → Bool) (w : World) (W : Nat) :
    Decidable (BorderWalled wall w W) := by
  unfold BorderWalled OnBorder; infer_instance

instance instDecInterior (W H : Nat) (x y : Int) : Decidable (Interior W H x y) := by
  unfold Interior; infer_instance

instance instDecAgentsOk (wall : Nat → Bool) (mpm : MPM) (W H : Nat) (l : List Agent) :
    Decidable (AgentsOk wall mpm W H l) := by
  unfold AgentsOk; infer_instance

instance instDecSync1 (w : World) (l : List Agent) : Decidable (Sync1 w l) := by
  unfold Sync1; infer_instance

instance instDecSync2 (wall : Nat → Bool) (w : World) (W : Nat) (l : List Agent) :
    Decidable (Sync2 wall w W l) := by
  unfold Sync2; infer_instance

instance instDecInv (wall : Nat → Bool) (mpm : MPM) (W : Nat) (w : World) (l : List Agent) :
    Decidable (Inv wall mpm W w l) := by
  unfold Inv; infer_instance

/-! Concrete configurations used in the scenario claims and as witnesses.
Wall code 10 is the border wall value used throughout the repository
configs; type 48 with matrix [[0,0,0],[0,0,1],[0,0,0]] is the always-move-
right agent of the end-to-end scenario; type 41 with [[0,1,0],[0,0,0],
[0,0,0]] always moves up. -/

/-- Wall predicate recognizing the border wall code 10. -/
def wallEx : Nat → Bool := fun v => decide (v = 10)

/-- MPM table containing only type 48, the always-move-right agent. -/
def mpmRight : MPM := fun ty => if ty = 48 then some [[0,0,0],[0,0,1],[0,0,0]] else none

/-- MPM table with type 48 moving right and type 41 moving up. -/
def mpmAB : MPM := fun ty =>
  if ty = 48 then some [[0,0,0],[0,0,1],[0,0,0]]
  else if ty = 41 then some [[0,1,0],[0,0,0],[0,0,0]] else none

/-- MPM table with type 48 always moving straight down. -/
def mpmDown : MPM := fun ty =>
  if ty = 48 then some [[0,0,0],[0,0,0],[0,1,0]] else none

/-- Small 4x3 bordered world with a single agent of type 48 at (1, 1). -/
def sEx0 : SimState :=
  ⟨[[10,10,10,10],[10,48,0,10],[10,10,10,10]], [(1,1,48)], 0⟩

/-- State after one step of sEx0: the agent moved right to (2, 1). -/
def sEx1 : SimState :=
  ⟨[[10,10,10,10],[10,0,48,10],[10,10,10,10]], [(2,1,48)], 1⟩

/-- The literal 5x5 world of the end-to-end claim, fully bordered by wall
code 10, agent of type 48 at its center (2, 2). -/
def s5 : SimState :=
  ⟨[[10,10,10,10,10],
    [10, 0, 0, 0,10],
    [10, 0,48, 0,10],
    [10, 0, 0, 0,10],
    [10,10,10,10,10]], [(2,2,48)], 0⟩

/-- State of the 5x5 scenario after one step: agent at (3, 2); on this
grid (4, 2) is a border wall, so no further movement is possible. -/
def s5a : SimState :=
  ⟨[[10,10,10,10,10],
    [10, 0, 0, 0,10],
    [10, 0, 0,48,10],
    [10, 0, 0, 0,10],
    [10,10,10,10,10]], [(3,2,48)], 1⟩

/-- State of the 5x5 scenario after two steps: the agent is still at
(3, 2) because its destination (4, 2) holds border wall code 10. -/
def s5b : SimState :=
  ⟨s5a.world, [(3,2,48)], 2⟩

/-- The 6x6 world consistent with the end-to-end scenario: border at
x = 0, x = 5, y = 0, y = 5 so that (5, 2) is a wall, agent at (2, 2). -/
def s6 : SimState :=
  ⟨[[10,10,10,10,10,10],
    [10, 0, 0, 0, 0,10],
    [10, 0,48, 0, 0,10],
    [10, 0, 0, 0, 0,10],
    [10, 0, 0, 0, 0,10],
    [10,10,10,10,10,10]], [(2,2,48)], 0⟩

/-- The 6x6 scenario after one step: agent at (3, 2). -/
def s6a : SimState :=
  ⟨[[10,10,10,10,10,10],
    [10, 0, 0, 0, 0,10],
    [10, 0, 0,48, 0,10],
    [10, 0, 0, 0, 0,10],
    [10, 0, 0, 0, 0,10],
    [10,10,10,10,10,10]], [(3,2,48)], 1⟩

/-- The 6x6 scenario after two steps: agent at (4, 2). -/
def s6b : SimState :=
  ⟨[[10,10,10,10,10,10],
    [10, 0, 0, 0, 0,10],
    [10, 0, 0, 0,48,10],
    [10, 0, 0, 0, 0,10],
    [10, 0, 0, 0, 0,10],
    [10,10,10,10,10,10]], [(4,2,48)], 2⟩

/-- The 6x6 scenario after three steps: the agent stays at (4, 2) since
its destination (5, 2) holds wall code 10. -/
def s6c : SimState :=
  ⟨s6b.world, [(4,2,48)], 3⟩

/-- Two-agent world for the sequential-update scenario: agent A of type 48
at (1, 1) processed first always moves right; agent B of type 41 at (1, 2)
processed second always moves up, into the cell A vacates in the same
step. -/
def s8 : SimState :=
  ⟨[[10,10,10,10],
    [10,48, 0,10],
    [10,41, 0,10],
    [10,10,10,10]], [(1,1,48),(1,2,41)], 0⟩

/-- Result of one step of s8: A moved right to (2, 1) and B moved up into
(1, 1), the cell A occupied when the step began. -/
def s8a : SimState :=
  ⟨[[10,10,10,10],
    [10,41,48,10],
    [10, 0, 0,10],
    [10,10,10,10]], [(2,1,48),(1,1,41)], 1⟩

/-- Two-agent world for the configuration-error scenario: agent (1,1,48)
has a matrix in mpmRight, agent (3,1,41) does not. -/
def s5c : SimState :=
  ⟨[[10,10,10,10,10],
    [10,48, 0,41,10],
    [10,10,10,10,10]], [(1,1,48),(3,1,41)], 7⟩

/-- The module state left behind by the throwing simulate() call on s5c:
agent (1,1,48) already moved right before the throw, so the grid is
partially updated while the registry and tick are unchanged. -/
def s5c2 : SimState :=
  ⟨[[10,10,10,10,10],
    [10, 0,48,41,10],
    [10,10,10,10,10]], [(1,1,48),(3,1,41)], 7⟩

/-! Basic lemmas about the grid primitives. -/

theorem getD_mem {α : Type} {l : List α} {n : Nat} (h : n < l.length) (d : α) :
    l.getD n d ∈ l := by
  have he : l.getD n d = l[n] := by
    simp [List.getD, List.get?_eq_getElem?, List.getElem?_eq_getElem h]
  rw [he]
  exact List.getElem_mem h

theorem length_setCell (w : World) (x y : Int) (v : Nat) :
    (setCell w x y v).length = w.length := by
  unfold setCell
  split
  · rfl
  · simp [List.length_set]

theorem rect_setCell {w : World} {W : Nat} (hR : Rect w W) (x y : Int) (v : Nat) :
    Rect (setCell w x y v) W := by
  unfold setCell
  split
  · exact hR
  · intro row hrow
    by_cases hlen : y.toNat < w.length
    · rcases List.mem_or_eq_of_mem_set hrow with h | h
      · exact hR _ h
      · subst h
        rw [List.length_set]
        exact hR _ (getD_mem hlen [])
    · rw [List.set_eq_of_length_le (by omega)] at hrow
      exact hR _ hrow

theorem rowAt_of_inB {w : World} {y : Int} (h0 : 0 ≤ y) (hy : y.toNat < w.length) :
    rowAt w y = some (w.getD y.toNat []) := by
  unfold rowAt
  rw [if_neg (by omega)]
  simp [List.getD, List.get?_eq_getElem?, List.getElem?_eq_getElem hy]

theorem readCell_of_inB {w : World} {W : Nat} {x y : Int}
    (hR : Rect w W) (h : InB w W x y) :
    readCell w x y = .ok (some ((w.getD y.toNat []).getD x.toNat 0)) := by
  obtain ⟨hx0, hxW, hy0, hyH⟩ := h
  have hy : y.toNat < w.length := by omega
  have hrowlen : (w.getD y.toNat []).length = W := hR _ (getD_mem hy [])
  have hx : x.toNat < (w.getD y.toNat []).length := by omega
  unfold readCell
  rw [rowAt_of_inB hy0 hy]
  dsimp only
  unfold entryAt
  rw [if_neg (by omega : ¬x < 0)]
  rw [List.get?_eq_getElem?, List.getElem?_eq_getElem hx]
  have hgd : w.getD y.toNat [] = w[y.toNat] := by
    simp [List.getD, List.get?_eq_getElem?, List.getElem?_eq_getElem hy]
  have hx2 : x.toNat < w[y.toNat].length := by rw [← hgd]; exact hx
  have hy2 : w[y.toNat]? = some w[y.toNat] := List.getElem?_eq_getElem hy
  simp [List.getD, List.get?_eq_getElem?, hy2, List.getElem?_eq_getElem hx2]

theorem cell_of_inB {w : World} {W : Nat} {x y : Int}
    (hR : Rect w W) (h : InB w W x y) :
    cell w x y = (w.getD y.toNat []).getD x.toNat 0 := by
  unfold cell
  rw [readCell_of_inB hR h]

theorem readCell_cell {w : World} {W : Nat} {x y : Int}
    (hR : Rect w W) (h : InB w W x y) :
    readCell w x y = .ok (some (cell w x y)) := by
  rw [readCell_of_inB hR h, cell_of_inB hR h]

theorem readCell_ok_some {w : World} {W : Nat} {x y : Int} {v : Nat}
    (hR : Rect w W) (h : readCell w x y = .ok (some v)) :
    InB w W x y ∧ cell w x y = v := by
  have hc : cell w x y = v := by unfold cell; rw [h]
  unfold readCell at h
  rcases hrow : rowAt w y with _ | row
  · rw [hrow] at h; exact absurd h (by simp)
  · rw [hrow] at h
    dsimp only at h
    have h2 : entryAt row x = some v := by simpa using h
    unfold rowAt at hrow
    by_cases hy0 : y < 0
    · rw [if_pos hy0] at hrow; exact absurd hrow (by simp)
    · rw [if_neg hy0] at hrow
      have hylen : y.toNat < w.length := by
        rcases List.get?_eq_some.mp hrow with ⟨hlt, _⟩
        exact hlt
      have hrmem : row ∈ w := by
        rcases List.get?_eq_some.mp hrow with ⟨hlt, he⟩
        exact he ▸ List.get_mem w y.toNat hlt
      have hrlen : row.length = W := hR _ hrmem
      unfold entryAt at h2
      by_cases hx0 : x < 0
      · rw [if_pos hx0] at h2; exact absurd h2 (by simp)
      · rw [if_neg hx0] at h2
        have hxlen : x.toNat < row.length := (List.get?_eq_some.mp h2).1
        refine ⟨⟨by omega, by omega, by omega, by omega⟩, hc⟩

theorem cell_setCell_same {w : World} {W : Nat} {x y : Int}
    (hR : Rect w W) (h : InB w W x y) (v : Nat) :
    cell (setCell w x y v) x y = v := by
  obtain ⟨hx0, hxW, hy0, hyH⟩ := h
  have hy : y.toNat < w.length := by omega
  have hrowlen : (w.getD y.toNat []).length = W := hR _ (getD_mem hy [])
  have hx : x.toNat < (w.getD y.toNat []).length := by omega
  have hset : setCell w x y v = w.set y.toNat ((w.getD y.toNat []).set x.toNat v) := by
    unfold setCell; rw [if_neg (by omega)]
  rw [hset]
  have hR2 : Rect (w.set y.toNat ((w.getD y.toNat []).set x.toNat v)) W := by
    have := rect_setCell hR x y v (w := w) (W := W)
    rwa [hset] at this
  have hInB2 : InB (w.set y.toNat ((w.getD y.toNat []).set x.toNat v)) W x y := by
    refine ⟨hx0, hxW, hy0, ?_⟩
    rw [List.length_set]; omega
  rw [cell_of_inB hR2 hInB2]
  have hrow2 : (w.set y.toNat ((w.getD y.toNat []).set x.toNat v)).getD y.toNat [] =
      (w.getD y.toNat []).set x.toNat v := by
    simp [List.getD, List.get?_eq_getElem?, List.getElem?_set_eq_of_lt _ hy]
  rw [hrow2]
  simp [List.getD, List.get?_eq_getElem?,
    List.getElem?_set_eq_of_lt v (by simpa [List.length_set] using hx)]

theorem readCell_setCell_ne {w : World} {x y x2 y2 : Int}
    (h : x ≠ x2 ∨ y ≠ y2) (v : Nat) :
    readCell (setCell w x2 y2 v) x y = readCell w x y := by
  unfold setCell
  split
  · rfl
  · rename_i hcond
    push_neg at hcond
    unfold readCell rowAt
    by_cases hy0 : y < 0
    · rw [if_pos hy0, if_pos hy0]
    · rw [if_neg hy0, if_neg hy0]
      by_cases hyy : y = y2
      · subst hyy
        have hx2 : x ≠ x2 := by tauto
        by_cases hylen : y.toNat < w.length
        · simp only [List.get?_eq_getElem?]
          rw [List.getElem?_set_eq_of_lt _ hylen, List.getElem?_eq_getElem hylen]
          dsimp only
          have hgd : w.getD y.toNat [] = w[y.toNat] := by
            simp [List.getD, List.get?_eq_getElem?, List.getElem?_eq_getElem hylen]
          rw [hgd]
          unfold entryAt
          by_cases hx0 : x < 0
          · rw [if_pos hx0, if_pos hx0]
          · rw [if_neg hx0, if_neg hx0]
            have hne : x2.toNat ≠ x.toNat := by omega
            simp only [List.get?_eq_getElem?]
            rw [List.getElem?_set_ne hne]
        · rw [List.set_eq_of_length_le (by omega)]
      · have hne : y2.toNat ≠ y.toNat := by omega
        simp only [List.get?_eq_getElem?]
        rw [List.getElem?_set_ne hne]

theorem cell_setCell_ne {w : World} {x y x2 y2 : Int}
    (h : x ≠ x2 ∨ y ≠ y2) (v : Nat) :
    cell (setCell w x2 y2 v) x y = cell w x y := by
  unfold cell
  rw [readCell_setCell_ne h v]

theorem countAt_append (l1 l2 : List Agent) (x y : Int) :
    countAt (l1 ++ l2) x y = countAt l1 x y + countAt l2 x y := by
  simp [countAt, List.filter_append]

theorem countAt_cons (a : Agent) (l : List Agent) (x y : Int) :
    countAt (a :: l) x y =
      (if a.1 = x ∧ a.2.1 = y then 1 else 0) + countAt l x y := by
  simp only [countAt, List.filter_cons]
  split
  · rename_i hd
    rw [if_pos (by simpa using hd)]
    simp [Nat.add_comm]
  · rename_i hd
    rw [if_neg (by simpa using hd)]
    simp

theorem countAt_eq_zero {l : List Agent} {x y : Int} :
    countAt l x y = 0 ↔ ∀ a ∈ l, ¬(a.1 = x ∧ a.2.1 = y) := by
  simp [countAt, List.length_eq_zero, List.filter_eq_nil_iff]

/-! Single-step preservation of the invariant. -/

/-- Core single-move lemma: swapping the agent (x, y, ty) into an empty
in-bounds destination (x2, y2) -- destination written first, source
cleared second, exactly as the JS destructuring swap does -- preserves the
well-formedness invariant, with the agent record rewritten in place. -/
theorem move_inv {wall : Nat → Bool} {mpm : MPM} {W : Nat} {w : World}
    {L1 L2 : List Agent} {x y x2 y2 : Int} {ty : Nat}
    (hw0 : wall 0 = false)
    (hInv : Inv wall mpm W w (L1 ++ (x, y, ty) :: L2))
    (hdest : readCell w x2 y2 = .ok (some 0)) :
    Inv wall mpm W (setCell (setCell w x2 y2 ty) x y 0) (L1 ++ (x2, y2, ty) :: L2) := by
  obtain ⟨hR, hB, hA, h1, h2⟩ := hInv
  have hself : (x, y, ty) ∈ L1 ++ (x, y, ty) :: L2 := by simp
  have hInt : Interior W w.length x y := (hA _ hself).1
  have hty0 : ty ≠ 0 := (hA _ hself).2.1
  have htyw : wall ty = false := (hA _ hself).2.2.1
  have htymp : (mpm ty).isSome = true := (hA _ hself).2.2.2
  have hsrcInB : InB w W x y := by
    obtain ⟨i1, i2, i3, i4⟩ := hInt
    exact ⟨by omega, by omega, by omega, by omega⟩
  have hcellsrc : cell w x y = ty := h1 _ hself
  obtain ⟨hdInB, hcelldest⟩ := readCell_ok_some hR hdest
  have hne : ¬(x = x2 ∧ y = y2) := by
    rintro ⟨rfl, rfl⟩
    rw [hcellsrc] at hcelldest
    exact hty0 hcelldest
  have hdInt : Interior W w.length x2 y2 := by
    obtain ⟨d1, d2, d3, d4⟩ := hdInB
    by_contra hcon
    have hOB : OnBorder W w.length x2.toNat y2.toNat := by
      unfold Interior at hcon
      unfold OnBorder
      omega
    have hbw := hB x2.toNat (by omega) y2.toNat (by omega) hOB
    rw [Int.toNat_of_nonneg d1, Int.toNat_of_nonneg d3, hcelldest, hw0] at hbw
    exact Bool.false_ne_true hbw
  have hnodest : ∀ a ∈ L1 ++ (x, y, ty) :: L2, ¬(a.1 = x2 ∧ a.2.1 = y2) := by
    rintro a ha ⟨hax, hay⟩
    have hc := h1 _ ha
    rw [hax, hay, hcelldest] at hc
    exact (hA _ ha).2.1 hc.symm
  have hcnt : countAt (L1 ++ (x, y, ty) :: L2) x y = 1 := by
    obtain ⟨s1, s2, s3, s4⟩ := hsrcInB
    have hs := h2 x.toNat (by omega) y.toNat (by omega)
    rw [Int.toNat_of_nonneg s1, Int.toNat_of_nonneg s3] at hs
    exact hs (by rw [hcellsrc]; exact hty0) (by rw [hcellsrc]; exact htyw)
  have hsplit : countAt L1 x y = 0 ∧ countAt L2 x y = 0 := by
    have h3 : countAt (L1 ++ (x, y, ty) :: L2) x y =
        countAt L1 x y + (1 + countAt L2 x y) := by
      rw [countAt_append, countAt_cons]
      simp
    omega
  have hnsrc1 := countAt_eq_zero.mp hsplit.1
  have hnsrc2 := countAt_eq_zero.mp hsplit.2
  have hR1 : Rect (setCell w x2 y2 ty) W := rect_setCell hR x2 y2 ty
  have hR2 : Rect (setCell (setCell w x2 y2 ty) x y 0) W := rect_setCell hR1 x y 0
  have hlen2 : (setCell (setCell w x2 y2 ty) x y 0).length = w.length := by
    rw [length_setCell, length_setCell]
  have hdInB1 : InB (setCell w x2 y2 ty) W x y := by
    obtain ⟨s1, s2, s3, s4⟩ := hsrcInB
    exact ⟨s1, s2, s3, by rw [length_setCell]; exact s4⟩
  have hdInB2 : InB w W x2 y2 := hdInB
  have csrc2 : cell (setCell (setCell w x2 y2 ty) x y 0) x y = 0 :=
    cell_setCell_same hR1 hdInB1 0
  have cdest2 : cell (setCell (setCell w x2 y2 ty) x y 0) x2 y2 = ty := by
    rw [cell_setCell_ne (by tauto) 0, cell_setCell_same hR hdInB2 ty]
  have cother : ∀ a b : Int, (a ≠ x ∨ b ≠ y) → (a ≠ x2 ∨ b ≠ y2) →
      cell (setCell (setCell w x2 y2 ty) x y 0) a b = cell w a b := by
    intro a b hs hd
    rw [cell_setCell_ne hs 0, cell_setCell_ne hd ty]
  refine ⟨hR2, ?_, ?_, ?_, ?_⟩
  · -- border stays walled: the two written cells are interior
    intro xb hxb yb hyb hOB
    rw [hlen2] at hyb hOB
    have hbs : (xb : Int) ≠ x ∨ (yb : Int) ≠ y := by
      obtain ⟨i1, i2, i3, i4⟩ := hInt
      unfold OnBorder at hOB
      omega
    have hbd : (xb : Int) ≠ x2 ∨ (yb : Int) ≠ y2 := by
      obtain ⟨i1, i2, i3, i4⟩ := hdInt
      unfold OnBorder at hOB
      omega
    rw [cother _ _ hbs hbd]
    exact hB xb hxb yb hyb hOB
  · -- agents stay interior with known nonzero non-wall types
    intro a ha
    rw [hlen2]
    rcases List.mem_append.mp ha with ha1 | ha2
    · exact hA _ (List.mem_append.mpr (Or.inl ha1))
    · rcases List.mem_cons.mp ha2 with rfl | ha3
      · exact ⟨hdInt, hty0, htyw, htymp⟩
      · exact hA _ (by simp [ha3])
  · -- Sync1: every agent record matches its cell
    intro a ha
    rcases List.mem_append.mp ha with ha1 | ha2
    · have haL : a ∈ L1 ++ (x, y, ty) :: L2 := List.mem_append.mpr (Or.inl ha1)
      rw [cother _ _ (by have := hnsrc1 _ ha1; tauto) (by have := hnodest _ haL; tauto)]
      exact h1 _ haL
    · rcases List.mem_cons.mp ha2 with rfl | ha3
      · exact cdest2
      · have haL : a ∈ L1 ++ (x, y, ty) :: L2 := by simp [ha3]
        rw [cother _ _ (by have := hnsrc2 _ ha3; tauto) (by have := hnodest _ haL; tauto)]
        exact h1 _ haL
  · -- Sync2: every nonzero non-wall cell has exactly one agent
    intro xb hxb yb hyb hv0 hvw
    rw [hlen2] at hyb
    by_cases hps : (xb : Int) = x ∧ (yb : Int) = y
    · rw [hps.1, hps.2, csrc2] at hv0
      exact absurd rfl hv0
    · by_cases hpd : (xb : Int) = x2 ∧ (yb : Int) = y2
      · rw [hpd.1, hpd.2]
        rw [countAt_append, countAt_cons]
        have e1 : countAt L1 x2 y2 = 0 :=
          countAt_eq_zero.mpr fun a ha => hnodest a (List.mem_append.mpr (Or.inl ha))
        have e2 : countAt L2 x2 y2 = 0 :=
          countAt_eq_zero.mpr fun a ha => hnodest a (by simp [ha])
        simp [e1, e2]
      · push_neg at hps hpd
        have hvs : (xb : Int) ≠ x ∨ (yb : Int) ≠ y := by
          by_cases hx : (xb : Int) = x
          · exact Or.inr (hps hx)
          · exact Or.inl hx
        have hvd : (xb : Int) ≠ x2 ∨ (yb : Int) ≠ y2 := by
          by_cases hx : (xb : Int) = x2
          · exact Or.inr (hpd hx)
          · exact Or.inl hx
        rw [cother _ _ hvs hvd] at hv0 hvw
        have hold := h2 xb hxb yb hyb hv0 hvw
        rw [countAt_append, countAt_cons] at hold ⊢
        have em : ¬((x2, y2, ty).1 = (xb : Int) ∧ (x2, y2, ty).2.1 = (yb : Int)) := by
          rcases hvd with hx | hy
          · exact fun hc => hx hc.1.symm
          · exact fun hc => hy hc.2.symm
        have eo : ¬((x, y, ty).1 = (xb : Int) ∧ (x, y, ty).2.1 = (yb : Int)) := by
          rcases hvs with hx | hy
          · exact fun hc => hx hc.1.symm
          · exact fun hc => hy hc.2.symm
        rw [if_neg em]
        rw [if_neg eo] at hold
        exact hold

/-- Removal lemma for the filter extension: deleting the agent (x2, y2, ty)
from the registry while clearing its cell preserves the well-formedness
invariant. -/
theorem remove_inv {wall : Nat → Bool} {mpm : MPM} {W : Nat} {w : World}
    {L1 L2 : List Agent} {x2 y2 : Int} {ty : Nat}
    (hInv : Inv wall mpm W w (L1 ++ (x2, y2, ty) :: L2)) :
    Inv wall mpm W (setCell w x2 y2 0) (L1 ++ L2) := by
  obtain ⟨hR, hB, hA, h1, h2⟩ := hInv
  have hself : (x2, y2, ty) ∈ L1 ++ (x2, y2, ty) :: L2 := by simp
  have hInt : Interior W w.length x2 y2 := (hA _ hself).1
  have hty0 : ty ≠ 0 := (hA _ hself).2.1
  have htyw : wall ty = false := (hA _ hself).2.2.1
  have hcellself : cell w x2 y2 = ty := h1 _ hself
  have hInB : InB w W x2 y2 := by
    obtain ⟨i1, i2, i3, i4⟩ := hInt
    exact ⟨by omega, by omega, by omega, by omega⟩
  have hcnt : countAt (L1 ++ (x2, y2, ty) :: L2) x2 y2 = 1 := by
    obtain ⟨s1, s2, s3, s4⟩ := hInB
    have hs := h2 x2.toNat (by omega) y2.toNat (by omega)
    rw [Int.toNat_of_nonneg s1, Int.toNat_of_nonneg s3] at hs
    exact hs (by rw [hcellself]; exact hty0) (by rw [hcellself]; exact htyw)
  have hsplit : countAt L1 x2 y2 = 0 ∧ countAt L2 x2 y2 = 0 := by
    have h3 : countAt (L1 ++ (x2, y2, ty) :: L2) x2 y2 =
        countAt L1 x2 y2 + (1 + countAt L2 x2 y2) := by
      rw [countAt_append, countAt_cons]
      simp
    omega
  have hn1 := countAt_eq_zero.mp hsplit.1
  have hn2 := countAt_eq_zero.mp hsplit.2
  have hR2 : Rect (setCell w x2 y2 0) W := rect_setCell hR x2 y2 0
  have hlen2 : (setCell w x2 y2 0).length = w.length := length_setCell w x2 y2 0
  have cdest : cell (setCell w x2 y2 0) x2 y2 = 0 := cell_setCell_same hR hInB 0
  have cother : ∀ a b : Int, (a ≠ x2 ∨ b ≠ y2) →
      cell (setCell w x2 y2 0) a b = cell w a b := by
    intro a b hd
    rw [cell_setCell_ne hd 0]
  refine ⟨hR2, ?_, ?_, ?_, ?_⟩
  · intro xb hxb yb hyb hOB
    rw [hlen2] at hyb hOB
    have hbd : (xb : Int) ≠ x2 ∨ (yb : Int) ≠ y2 := by
      obtain ⟨i1, i2, i3, i4⟩ := hInt
      unfold OnBorder at hOB
      omega
    rw [cother _ _ hbd]
    exact hB xb hxb yb hyb hOB
  · intro a ha
    rw [hlen2]
    rcases List.mem_append.mp ha with ha1 | ha2
    · exact hA _ (List.mem_append.mpr (Or.inl ha1))
    · exact hA _ (by simp [ha2])
  · intro a ha
    rcases List.mem_append.mp ha with ha1 | ha2
    · have haL : a ∈ L1 ++ (x2, y2, ty) :: L2 := List.mem_append.mpr (Or.inl ha1)
      rw [cother _ _ (by have := hn1 _ ha1; tauto)]
      exact h1 _ haL
    · have haL : a ∈ L1 ++ (x2, y2, ty) :: L2 := by simp [ha2]
      rw [cother _ _ (by have := hn2 _ ha2; tauto)]
      exact h1 _ haL
  · intro xb hxb yb hyb hv0 hvw
    rw [hlen2] at hyb
    by_cases hpd : (xb : Int) = x2 ∧ (yb : Int) = y2
    · rw [hpd.1, hpd.2, cdest] at hv0
      exact absurd rfl hv0
    · push_neg at hpd
      have hvd : (xb : Int) ≠ x2 ∨ (yb : Int) ≠ y2 := by
        by_cases hx : (xb : Int) = x2
        · exact Or.inr (hpd hx)
        · exact Or.inl hx
      rw [cother _ _ hvd] at hv0 hvw
      have hold := h2 xb hxb yb hyb hv0 hvw
      rw [countAt_append, countAt_cons] at hold
      rw [countAt_append]
      have eo : ¬((x2, y2, ty).1 = (xb : Int) ∧ (x2, y2, ty).2.1 = (yb : Int)) := by
        rcases hvd with hx | hy
        · exact fun hc => hx hc.1.symm
        · exact fun hc => hy hc.2.symm
      rw [if_neg eo] at hold
      omega

/-- The per-agent loop of simulate() preserves the invariant of the grid
together with the accumulator-plus-unprocessed agent list. -/
theorem stepLoop_inv {wall : Nat → Bool} {mpm : MPM} {W : Nat}
    (hw0 : wall 0 = false) (us : Nat → ℚ) :
    ∀ (rest : List Agent) (i : Nat) (w : World) (b : List Agent)
      (w2 : World) (b2 : List Agent),
      stepLoop mpm us i w b rest = .ok (w2, b2) →
      Inv wall mpm W w (b ++ rest) →
      Inv wall mpm W w2 b2 := by
  intro rest
  induction rest with
  | nil =>
    intro i w b w2 b2 hstep hInv
    rw [stepLoop] at hstep
    obtain ⟨h1, h2⟩ := Prod.mk.injEq .. ▸ Except.ok.inj hstep
    subst h1; subst h2
    simpa using hInv
  | cons a rest ih =>
    intro i w b w2 b2 hstep hInv
    obtain ⟨x, y, ty⟩ := a
    rw [stepLoop] at hstep
    rcases hm : mpm ty with _ | m
    · rw [hm] at hstep; exact Except.noConfusion hstep
    · rw [hm] at hstep
      dsimp only at hstep
      rcases hgd : generateDirection m (us i) with _ | d
      · rw [hgd] at hstep; exact Except.noConfusion hstep
      · obtain ⟨dx, dy⟩ := d
        rw [hgd] at hstep
        dsimp only at hstep
        rcases hrc : readCell w (x + dx) (y + dy) with e | v
        · rw [hrc] at hstep; exact Except.noConfusion hstep
        · rw [hrc] at hstep
          dsimp only at hstep
          by_cases hv : v = some 0
          · subst hv
            rw [if_pos rfl] at hstep
            have hself : (x, y, ty) ∈ b ++ (x, y, ty) :: rest := by simp
            have hInt : Interior W w.length x y := (hInv.2.2.1 _ hself).1
            have hsrcInB : InB w W x y := by
              obtain ⟨i1, i2, i3, i4⟩ := hInt
              exact ⟨by omega, by omega, by omega, by omega⟩
            have hcellsrc : cell w x y = ty := hInv.2.2.2.1 _ hself
            have hsrc : readCell w x y = .ok (some ty) := by
              rw [readCell_cell hInv.1 hsrcInB, hcellsrc]
            rw [hsrc] at hstep
            dsimp only at hstep
            have hInv2 : Inv wall mpm W
                (setCell (setCell w (x + dx) (y + dy) ty) x y 0)
                ((b ++ [(x + dx, y + dy, ty)]) ++ rest) := by
              have := move_inv hw0 hInv hrc
              simpa [List.append_assoc] using this
            exact ih _ _ _ _ _ hstep hInv2
          · rw [if_neg hv] at hstep
            have hInv2 : Inv wall mpm W w ((b ++ [(x, y, ty)]) ++ rest) := by
              simpa [List.append_assoc] using hInv
            exact ih _ _ _ _ _ hstep hInv2

/-- One successful simulate() call preserves the invariant. -/
theorem simulate_inv {wall : Nat → Bool} {mpm : MPM} {W : Nat}
    (hw0 : wall 0 = false) {us : Nat → ℚ} {s s2 : SimState}
    (h : simulate mpm us s = .ok s2)
    (hInv : Inv wall mpm W s.world s.agents) :
    Inv wall mpm W s2.world s2.agents := by
  unfold simulate at h
  rcases hsl : stepLoop mpm us 0 s.world [] s.agents with e | p
  · rw [hsl] at h; exact Except.noConfusion h
  · obtain ⟨w2, b2⟩ := p
    rw [hsl] at h
    dsimp only at h
    have hs2 : s2 = ⟨w2, b2, s.t + 1⟩ := (Except.ok.inj h).symm
    subst hs2
    exact stepLoop_inv hw0 us s.agents 0 s.world [] w2 b2 hsl (by simpa using hInv)

/-- Any number of successful simulate() calls preserves the invariant. -/
theorem runN_inv {wall : Nat → Bool} {mpm : MPM} {W : Nat}
    (hw0 : wall 0 = false) {uss : Nat → Nat → ℚ} {n : Nat} {s s2 : SimState}
    (h : runN mpm uss n s = .ok s2)
    (hInv : Inv wall mpm W s.world s.agents) :
    Inv wall mpm W s2.world s2.agents := by
  induction n generalizing s2 with
  | zero =>
    rw [runN] at h
    have hs2 : s2 = s := (Except.ok.inj h).symm
    subst hs2
    exact hInv
  | succ n ih =>
    rw [runN] at h
    rcases hr : runN mpm uss n s with e | s1
    · rw [hr] at h; exact Except.noConfusion h
    · rw [hr] at h
      dsimp only at h
      exact simulate_inv hw0 h (ih hr)

/-- The well-formedness invariant entails the sync-invariant conclusion
form, including the type-match part. -/
theorem inv_syncInv {wall : Nat → Bool} {mpm : MPM} {W : Nat}
    {w : World} {l : List Agent} (hInv : Inv wall mpm W w l) :
    SyncInv wall W w l := by
  obtain ⟨hR, hB, hA, h1, h2⟩ := hInv
  refine ⟨h1, ?_⟩
  intro x hx y hy hv0 hvw
  refine ⟨h2 x hx y hy hv0 hvw, ?_⟩
  intro a ha hax hay
  have hc := h1 _ ha
  rw [hax, hay] at hc
  exact hc.symm

/-! Characterization of the filter loop of simulate2(). -/

/-- When no filter position equals the destination column, the filter loop
changes nothing. -/
theorem filterLoop_no_hit (x2 y2 : Int) (ty : Nat) (ft : List Nat) :
    ∀ (ps : List Int) (f : Nat) (cnt : List Nat) (w : World) (b : List Agent),
      (∀ p ∈ ps, p ≠ x2) →
      filterLoop x2 y2 ty ft ps f cnt w b = (cnt, w, b)
  | [], f, cnt, w, b, h => by rw [filterLoop]
  | p :: ps, f, cnt, w, b, h => by
    rw [filterLoop]
    rw [if_neg (fun hc => (h p (by simp)) hc.symm)]
    exact filterLoop_no_hit x2 y2 ty ft ps (f + 1) cnt w b fun q hq => h q (by simp [hq])

/-- When exactly one filter position equals the destination column, the
filter loop increments exactly that counter; it additionally pops the
just-pushed record and clears the destination cell exactly when the agent
type matches that filter type. -/
theorem filterLoop_hit (x2 y2 : Int) (ty : Nat) (ft : List Nat) :
    ∀ (P1 P2 : List Int) (f : Nat) (cnt : List Nat) (w : World) (b : List Agent),
      (∀ q ∈ P1, q ≠ x2) → (∀ q ∈ P2, q ≠ x2) →
      filterLoop x2 y2 ty ft (P1 ++ x2 :: P2) f cnt w b =
        (if ft.get? (f + P1.length) = some ty then
          (cnt.set (f + P1.length) (cnt.getD (f + P1.length) 0 + 1),
            setCell w x2 y2 0, b.dropLast)
         else
          (cnt.set (f + P1.length) (cnt.getD (f + P1.length) 0 + 1), w, b))
  | [], P2, f, cnt, w, b, h1, h2 => by
    rw [List.nil_append, filterLoop, if_pos rfl]
    dsimp only
    simp only [List.length_nil, Nat.add_zero]
    split
    · rw [filterLoop_no_hit x2 y2 ty ft P2 (f + 1) _ _ _ h2]
    · rw [filterLoop_no_hit x2 y2 ty ft P2 (f + 1) _ _ _ h2]
  | q :: P1, P2, f, cnt, w, b, h1, h2 => by
    rw [List.cons_append, filterLoop]
    rw [if_neg (fun hc => (h1 q (by simp)) hc.symm)]
    rw [filterLoop_hit x2 y2 ty ft P1 P2 (f + 1) cnt w b
      (fun r hr => h1 r (by simp [hr])) h2]
    have he : f + 1 + P1.length = f + (q :: P1).length := by
      simp [List.length_cons]; omega
    rw [he]

/-- A member of a pairwise-distinct list splits it so that no other
element equals it. -/
theorem split_of_pairwise {ps : List Int} {x2 : Int}
    (hmem : x2 ∈ ps) (hpw : ps.Pairwise (· ≠ ·)) :
    ∃ P1 P2, ps = P1 ++ x2 :: P2 ∧ (∀ q ∈ P1, q ≠ x2) ∧ (∀ q ∈ P2, q ≠ x2) := by
  obtain ⟨P1, P2, rfl⟩ := List.append_of_mem hmem
  refine ⟨P1, P2, rfl, ?_, ?_⟩
  · intro q hq
    exact (List.pairwise_append.mp hpw).2.2 q hq x2 (by simp)
  · intro q hq
    have hc := (List.pairwise_append.mp hpw).2.1
    exact fun he => (List.pairwise_cons.mp hc).1 q hq he.symm

/-- The per-agent loop of simulate2() preserves the invariant when the
configured filter positions are pairwise distinct. -/
theorem stepLoop2_inv {wall : Nat → Bool} {mpm : MPM} {W : Nat}
    (hw0 : wall 0 = false) (fp : List Int) (ft : List Nat)
    (hfp : fp.Pairwise (· ≠ ·)) (us : Nat → ℚ) :
    ∀ (rest : List Agent) (i : Nat) (w : World) (cnt : List Nat) (b : List Agent)
      (w2 : World) (cnt2 : List Nat) (b2 : List Agent),
      stepLoop2 mpm fp ft us i w cnt b rest = .ok (w2, cnt2, b2) →
      Inv wall mpm W w (b ++ rest) →
      Inv wall mpm W w2 b2 := by
  intro rest
  induction rest with
  | nil =>
    intro i w cnt b w2 cnt2 b2 hstep hInv
    rw [stepLoop2] at hstep
    obtain ⟨e1, e2, e3⟩ : w = w2 ∧ cnt = cnt2 ∧ b = b2 := by
      simpa using hstep
    subst e1; subst e3
    simpa using hInv
  | cons a rest ih =>
    intro i w cnt b w2 cnt2 b2 hstep hInv
    obtain ⟨x, y, ty⟩ := a
    rw [stepLoop2] at hstep
    rcases hm : mpm ty with _ | m
    · rw [hm] at hstep; exact Except.noConfusion hstep
    · rw [hm] at hstep
      dsimp only at hstep
      rcases hgd : generateDirection m (us i) with _ | d
      · rw [hgd] at hstep; exact Except.noConfusion hstep
      · obtain ⟨dx, dy⟩ := d
        rw [hgd] at hstep
        dsimp only at hstep
        rcases hrc : readCell w (x + dx) (y + dy) with e | v
        · rw [hrc] at hstep; exact Except.noConfusion hstep
        · rw [hrc] at hstep
          dsimp only at hstep
          by_cases hv : v = some 0
          · subst hv
            rw [if_pos rfl] at hstep
            have hself : (x, y, ty) ∈ b ++ (x, y, ty) :: rest := by simp
            have hInt : Interior W w.length x y := (hInv.2.2.1 _ hself).1
            have hsrcInB : InB w W x y := by
              obtain ⟨i1, i2, i3, i4⟩ := hInt
              exact ⟨by omega, by omega, by omega, by omega⟩
            have hcellsrc : cell w x y = ty := hInv.2.2.2.1 _ hself
            have hsrc : readCell w x y = .ok (some ty) := by
              rw [readCell_cell hInv.1 hsrcInB, hcellsrc]
            rw [hsrc] at hstep
            dsimp only at hstep
            have hmove : Inv wall mpm W
                (setCell (setCell w (x + dx) (y + dy) ty) x y 0)
                (b ++ (x + dx, y + dy, ty) :: rest) := move_inv hw0 hInv hrc
            by_cases hmem : (x + dx) ∈ fp
            · obtain ⟨P1, P2, hps, hp1, hp2⟩ := split_of_pairwise hmem hfp
              rw [hps, filterLoop_hit _ _ _ _ P1 P2 0 _ _ _ hp1 hp2] at hstep
              by_cases hft : ft.get? (0 + P1.length) = some ty
              · rw [if_pos hft] at hstep
                dsimp only at hstep
                rw [show (b ++ [(x + dx, y + dy, ty)]).dropLast = b from
                  List.dropLast_concat, ← hps] at hstep
                have hrem : Inv wall mpm W
                    (setCell (setCell (setCell w (x + dx) (y + dy) ty) x y 0)
                      (x + dx) (y + dy) 0) (b ++ rest) := remove_inv hmove
                exact ih _ _ _ _ _ _ _ hstep hrem
              · rw [if_neg hft, ← hps] at hstep
                dsimp only at hstep
                have hInv2 : Inv wall mpm W
                    (setCell (setCell w (x + dx) (y + dy) ty) x y 0)
                    ((b ++ [(x + dx, y + dy, ty)]) ++ rest) := by
                  simpa [List.append_assoc] using hmove
                exact ih _ _ _ _ _ _ _ hstep hInv2
            · rw [filterLoop_no_hit (x + dx) (y + dy) ty ft fp 0 _ _ _
                (fun p hp hc => hmem (hc ▸ hp))] at hstep
              dsimp only at hstep
              have hInv2 : Inv wall mpm W
                  (setCell (setCell w (x + dx) (y + dy) ty) x y 0)
                  ((b ++ [(x + dx, y + dy, ty)]) ++ rest) := by
                simpa [List.append_assoc] using hmove
              exact ih _ _ _ _ _ _ _ hstep hInv2
          · rw [if_neg hv] at hstep
            have hInv2 : Inv wall mpm W w ((b ++ [(x, y, ty)]) ++ rest) := by
              simpa [List.append_assoc] using hInv
            exact ih _ _ _ _ _ _ _ hstep hInv2

/-- One successful simulate2() call preserves the invariant when the
filter positions are pairwise distinct. -/
theorem simulate2_inv {wall : Nat → Bool} {mpm : MPM} {W : Nat}
    (hw0 : wall 0 = false) {fp : List Int} {ft : List Nat}
    (hfp : fp.Pairwise (· ≠ ·)) {us : Nat → ℚ} {s s2 : Sim2State}
    (h : simulate2 mpm fp ft us s = .ok s2)
    (hInv : Inv wall mpm W s.world s.agents) :
    Inv wall mpm W s2.world s2.agents := by
  unfold simulate2 at h
  rcases hsl : stepLoop2 mpm fp ft us 0 s.world s.filterCount [] s.agents with e | p
  · rw [hsl] at h; exact Except.noConfusion h
  · obtain ⟨w2, cnt2, b2⟩ := p
    rw [hsl] at h
    dsimp only at h
    have hs2 : s2 = ⟨w2, b2, cnt2, s.t + 1⟩ := (Except.ok.inj h).symm
    subst hs2
    exact stepLoop2_inv hw0 fp ft hfp us s.agents 0 s.world s.filterCount [] w2 cnt2 b2
      hsl (by simpa using hInv)

/-- Any number of successful simulate2() calls preserves the invariant. -/
theorem run2N_inv {wall : Nat → Bool} {mpm : MPM} {W : Nat}
    (hw0 : wall 0 = false) {fp : List Int} {ft : List Nat}
    (hfp : fp.Pairwise (· ≠ ·)) {uss : Nat → Nat → ℚ} {n : Nat} {s s2 : Sim2State}
    (h : run2N mpm fp ft uss n s = .ok s2)
    (hInv : Inv wall mpm W s.world s.agents) :
    Inv wall mpm W s2.world s2.agents := by
  induction n generalizing s2 with
  | zero =>
    rw [run2N] at h
    have hs2 : s2 = s := (Except.ok.inj h).symm
    subst hs2
    exact hInv
  | succ n ih =>
    rw [run2N] at h
    rcases hr : run2N mpm fp ft uss n s with e | s1
    · rw [hr] at h; exact Except.noConfusion h
    · rw [hr] at h
      dsimp only at h
      exact simulate2_inv hw0 hfp h (ih hr)

/-! Equation lemmas for symbolic execution of the step loops, and closed
evaluations of the direction sampler on the concrete matrices used in the
scenarios. -/

theorem stepLoop_nil (mpm : MPM) (us : Nat → ℚ) (i : Nat) (w : World) (b : List Agent) :
    stepLoop mpm us i w b [] = .ok (w, b) := by
  rw [stepLoop]

/-- Equation for a successful move of the head agent. -/
theorem stepLoop_move {mpm : MPM} {m : MPMat} {dx dy : Int} {sv : Nat}
    (us : Nat → ℚ) (i : Nat) (w : World) (b : List Agent) {x y : Int} {ty : Nat} (rest : List Agent)
    (hm : mpm ty = some m) (hgd : generateDirection m (us i) = some (dx, dy))
    (hdest : readCell w (x + dx) (y + dy) = .ok (some 0))
    (hsrc : readCell w x y = .ok (some sv)) :
    stepLoop mpm us i w b ((x, y, ty) :: rest) =
      stepLoop mpm us (i + 1) (setCell (setCell w (x + dx) (y + dy) sv) x y 0)
        (b ++ [(x + dx, y + dy, ty)]) rest := by
  rw [stepLoop, hm]
  dsimp only
  rw [hgd]
  dsimp only
  rw [hdest]
  dsimp only
  rw [if_pos rfl, hsrc]

/-- Equation for a blocked head agent: the destination cell holds a
nonzero value, so the grid is untouched and the agent is pushed back
unchanged. -/
theorem stepLoop_blocked {mpm : MPM} {m : MPMat} {dx dy : Int} {v : Nat}
    (us : Nat → ℚ) (i : Nat) (w : World) (b : List Agent) {x y : Int} {ty : Nat} (rest : List Agent)
    (hm : mpm ty = some m) (hgd : generateDirection m (us i) = some (dx, dy))
    (hdest : readCell w (x + dx) (y + dy) = .ok (some v)) (hv : v ≠ 0) :
    stepLoop mpm us i w b ((x, y, ty) :: rest) =
      stepLoop mpm us (i + 1) w (b ++ [(x, y, ty)]) rest := by
  rw [stepLoop, hm]
  dsimp only
  rw [hgd]
  dsimp only
  rw [hdest]
  dsimp only
  rw [if_neg (by simpa using hv)]

/-- Equation for the throw on a missing movement probability matrix. -/
theorem stepLoop_missing {mpm : MPM} (us : Nat → ℚ)
    (i : Nat) (w : World) (b : List Agent) {x y : Int} {ty : Nat} (rest : List Agent)
    (hm : mpm ty = none) :
    stepLoop mpm us i w b ((x, y, ty) :: rest) = .error w := by
  rw [stepLoop, hm]

theorem stepLoop2_nil (mpm : MPM) (fp : List Int) (ft : List Nat) (us : Nat → ℚ)
    (i : Nat) (w : World) (cnt : List Nat) (b : List Agent) :
    stepLoop2 mpm fp ft us i w cnt b [] = .ok (w, cnt, b) := by
  rw [stepLoop2]

/-- Equation for a successful move of the head agent in the filter engine,
before the filter loop is resolved. -/
theorem stepLoop2_move {mpm : MPM} {m : MPMat} {dx dy : Int} {sv : Nat}
    (fp : List Int) (ft : List Nat)
    (us : Nat → ℚ) (i : Nat) (w : World) (cnt : List Nat) (b : List Agent) {x y : Int} {ty : Nat}
    (rest : List Agent)
    (hm : mpm ty = some m) (hgd : generateDirection m (us i) = some (dx, dy))
    (hdest : readCell w (x + dx) (y + dy) = .ok (some 0))
    (hsrc : readCell w x y = .ok (some sv)) :
    stepLoop2 mpm fp ft us i w cnt b ((x, y, ty) :: rest) =
      (let w1 := setCell (setCell w (x + dx) (y + dy) sv) x y 0
       let r := filterLoop (x + dx) (y + dy) ty ft fp 0 cnt w1 (b ++ [(x + dx, y + dy, ty)])
       stepLoop2 mpm fp ft us (i + 1) r.2.1 r.1 r.2.2 rest) := by
  rw [stepLoop2, hm]
  dsimp only
  rw [hgd]
  dsimp only
  rw [hdest]
  dsimp only
  rw [if_pos rfl, hsrc]

/-- Equation for a blocked head agent in the filter engine. -/
theorem stepLoop2_blocked {mpm : MPM} {m : MPMat} {dx dy : Int} {v : Nat}
    (fp : List Int) (ft : List Nat)
    (us : Nat → ℚ) (i : Nat) (w : World) (cnt : List Nat) (b : List Agent) {x y : Int} {ty : Nat}
    (rest : List Agent)
    (hm : mpm ty = some m) (hgd : generateDirection m (us i) = some (dx, dy))
    (hdest : readCell w (x + dx) (y + dy) = .ok (some v)) (hv : v ≠ 0) :
    stepLoop2 mpm fp ft us i w cnt b ((x, y, ty) :: rest) =
      stepLoop2 mpm fp ft us (i + 1) w cnt (b ++ [(x, y, ty)]) rest := by
  rw [stepLoop2, hm]
  dsimp only
  rw [hgd]
  dsimp only
  rw [hdest]
  dsimp only
  rw [if_neg (by simpa using hv)]

/-- Sampler evaluation: the always-right matrix yields (1, 0) for every
draw in [0, 1). -/
theorem gdRight (u : ℚ) (h0 : 0 ≤ u) (h1 : u < 1) :
    generateDirection [[0,0,0],[0,0,1],[0,0,0]] u = some (1, 0) := by
  have hn : ¬((0:ℚ) > u) := not_lt.mpr h0
  have hp : (1:ℚ) > u := h1
  simp [generateDirection, gdRows, gdRow, hn, hp]

/-- Sampler evaluation: the always-up matrix yields (0, -1) for every draw
in [0, 1). -/
theorem gdUp (u : ℚ) (h0 : 0 ≤ u) (h1 : u < 1) :
    generateDirection [[0,1,0],[0,0,0],[0,0,0]] u = some (0, -1) := by
  have hn : ¬((0:ℚ) > u) := not_lt.mpr h0
  have hp : (1:ℚ) > u := h1
  simp [generateDirection, gdRows, gdRow, hn, hp]

/-- Sampler evaluation: the always-down matrix yields (0, 1) for every
draw in [0, 1). -/
theorem gdDown (u : ℚ) (h0 : 0 ≤ u) (h1 : u < 1) :
    generateDirection [[0,0,0],[0,0,0],[0,1,0]] u = some (0, 1) := by
  have hn : ¬((0:ℚ) > u) := not_lt.mpr h0
  have hp : (1:ℚ) > u := h1
  simp [generateDirection, gdRows, gdRow, hn, hp]

/-- Sampler evaluation: the all-zero matrix makes the scan fall through,
so the JS function returns undefined, modelled as none. -/
theorem gdZero (u : ℚ) (h0 : 0 ≤ u) :
    generateDirection [[0,0,0],[0,0,0],[0,0,0]] u = none := by
  have hn : ¬((0:ℚ) > u) := not_lt.mpr h0
  simp [generateDirection, gdRows, gdRow, hn]

/-- One-step evaluation of the 4x3 single-agent scenario: the agent moves
from (1, 1) to (2, 1). -/
theorem runEx : runN mpmRight (fun _ _ => 0) 1 sEx0 = .ok sEx1 := by
  rw [runN, runN]
  dsimp only
  unfold simulate
  rw [show sEx0.agents = [((1:Int), (1:Int), (48:Nat))] from rfl]
  rw [stepLoop_move (fun _ => 0) 0 sEx0.world [] [] rfl
    (gdRight 0 (by norm_num) (by norm_num)) (by rfl) (by rfl)]
  rw [stepLoop_nil]
  rfl

/-- C1: grid/registry synchronization is an invariant of the step
operation. For every state reachable by successful simulate() calls (first
conjunct) or successful simulate2() calls with pairwise-distinct filter
positions (second conjunct) from a well-formed initial configuration --
border fully walled, every agent type present in the MPM table, agents on
distinct interior cells with matching grid cells, as captured by Inv --
every registry entry (x, y, type) satisfies world[y][x] = type, and every
grid cell holding a non-wall nonzero value has exactly one registry entry
at that position, of exactly that type. -/
theorem claim_C1_grid_registry_sync :
    (∀ (wall : Nat → Bool) (mpm : MPM) (W : Nat) (uss : Nat → Nat → ℚ)
      (n : Nat) (s s2 : SimState),
      wall 0 = false →
      Inv wall mpm W s.world s.agents →
      runN mpm uss n s = .ok s2 →
      SyncInv wall W s2.world s2.agents) ∧
    (∀ (wall : Nat → Bool) (mpm : MPM) (fp : List Int) (ft : List Nat)
      (W : Nat) (uss : Nat → Nat → ℚ) (n : Nat) (s s2 : Sim2State),
      wall 0 = false →
      fp.Pairwise (· ≠ ·) →
      Inv wall mpm W s.world s.agents →
      run2N mpm fp ft uss n s = .ok s2 →
      SyncInv wall W s2.world s2.agents) := by
  constructor
  · intro wall mpm W uss n s s2 hw0 hInv h
    exact inv_syncInv (runN_inv hw0 h hInv)
  · intro wall mpm fp ft W uss n s s2 hw0 hfp hInv h
    exact inv_syncInv (run2N_inv hw0 hfp h hInv)

/-- Witness for C1 at a concrete input: the 4x3 bordered world with one
type-48 agent satisfies the well-formedness hypotheses, and one step later
the sync invariant holds for the resulting state. -/
theorem claim_C1_grid_registry_sync_witness :
    Inv wallEx mpmRight 4 sEx0.world sEx0.agents ∧
      SyncInv wallEx 4 sEx1.world sEx1.agents := by
  refine ⟨by decide, ?_⟩
  exact claim_C1_grid_registry_sync.1 wallEx mpmRight 4 (fun _ _ => 0) 1 sEx0 sEx1
    (by decide) (by decide) runEx

/-! Step evaluations of the end-to-end scenarios. -/

/-- First step on the literal 5x5 grid: agent moves from (2, 2) to (3, 2). -/
theorem sim5_1 (us : Nat → ℚ) (h0 : 0 ≤ us 0) (h1 : us 0 < 1) :
    simulate mpmRight us s5 = .ok s5a := by
  unfold simulate
  rw [show s5.agents = [((2:Int), (2:Int), (48:Nat))] from rfl]
  rw [stepLoop_move us 0 s5.world [] [] rfl (gdRight (us 0) h0 h1)
    (show readCell s5.world (2 + 1) (2 + 0) = .ok (some 0) from rfl)
    (show readCell s5.world 2 2 = .ok (some 48) from rfl)]
  rw [stepLoop_nil]
  rfl

/-- Second step on the literal 5x5 grid: the destination (4, 2) is the
border wall 10, so the agent stays at (3, 2). -/
theorem sim5_2 (us : Nat → ℚ) (h0 : 0 ≤ us 0) (h1 : us 0 < 1) :
    simulate mpmRight us s5a = .ok s5b := by
  unfold simulate
  rw [show s5a.agents = [((3:Int), (2:Int), (48:Nat))] from rfl]
  rw [stepLoop_blocked us 0 s5a.world [] [] rfl (gdRight (us 0) h0 h1)
    (show readCell s5a.world (3 + 1) (2 + 0) = .ok (some 10) from rfl)
    (by decide)]
  rw [stepLoop_nil]
  rfl

/-- First step on the 6x6 grid: agent moves from (2, 2) to (3, 2). -/
theorem sim6_1 (us : Nat → ℚ) (h0 : 0 ≤ us 0) (h1 : us 0 < 1) :
    simulate mpmRight us s6 = .ok s6a := by
  unfold simulate
  rw [show s6.agents = [((2:Int), (2:Int), (48:Nat))] from rfl]
  rw [stepLoop_move us 0 s6.world [] [] rfl (gdRight (us 0) h0 h1)
    (show readCell s6.world (2 + 1) (2 + 0) = .ok (some 0) from rfl)
    (show readCell s6.world 2 2 = .ok (some 48) from rfl)]
  rw [stepLoop_nil]
  rfl

/-- Second step on the 6x6 grid: agent moves from (3, 2) to (4, 2). -/
theorem sim6_2 (us : Nat → ℚ) (h0 : 0 ≤ us 0) (h1 : us 0 < 1) :
    simulate mpmRight us s6a = .ok s6b := by
  unfold simulate
  rw [show s6a.agents = [((3:Int), (2:Int), (48:Nat))] from rfl]
  rw [stepLoop_move us 0 s6a.world [] [] rfl (gdRight (us 0) h0 h1)
    (show readCell s6a.world (3 + 1) (2 + 0) = .ok (some 0) from rfl)
    (show readCell s6a.world 3 2 = .ok (some 48) from rfl)]
  rw [stepLoop_nil]
  rfl

/-- Third step on the 6x6 grid: the destination (5, 2) is the border wall
10, so the agent stays at (4, 2). -/
theorem sim6_3 (us : Nat → ℚ) (h0 : 0 ≤ us 0) (h1 : us 0 < 1) :
    simulate mpmRight us s6b = .ok s6c := by
  unfold simulate
  rw [show s6b.agents = [((4:Int), (2:Int), (48:Nat))] from rfl]
  rw [stepLoop_blocked us 0 s6b.world [] [] rfl (gdRight (us 0) h0 h1)
    (show readCell s6b.world (4 + 1) (2 + 0) = .ok (some 10) from rfl)
    (by decide)]
  rw [stepLoop_nil]
  rfl

/-- C2 counterexample: the claim places the scenario on a 5x5 grid fully
bordered by wall code 10, yet also expects the agent at (4, 2) after two
steps and a wall at (5, 2); on a 5x5 grid (4, 2) is itself the border
wall, so the code leaves the agent at (3, 2) after two steps, refuting
the claimed position (4, 2). -/
theorem claim_C2_end_to_end_counterexample :
    runN mpmRight (fun _ _ => 0) 2 s5 = .ok s5b ∧
      s5b.agents ≠ [(4, 2, 48)] := by
  constructor
  · rw [runN, runN, runN]
    dsimp only
    rw [sim5_1 (fun _ => 0) (by norm_num) (by norm_num)]
    dsimp only
    rw [sim5_2 (fun _ => 0) (by norm_num) (by norm_num)]
  · decide

/-- C2 amended: the end-to-end scenario holds on the 6x6 grid fully
bordered by wall code 10 (the reading under which (5, 2) is a wall), for
every draw stream in [0, 1): after 1 step the agent is at (3, 2) with grid
(2,2) = 0 and (3,2) = 48; after 2 steps at (4, 2); after 3 steps it
remains at (4, 2) because (5, 2) holds wall code 10. On the literal 5x5
grid, the agent is at (3, 2) after one step with the same cell updates and
remains there, since (4, 2) is the border wall. -/
theorem claim_C2_end_to_end (uss : Nat → Nat → ℚ)
    (hb : ∀ k i, 0 ≤ uss k i ∧ uss k i < 1) :
    runN mpmRight uss 1 s6 = .ok s6a ∧
    runN mpmRight uss 2 s6 = .ok s6b ∧
    runN mpmRight uss 3 s6 = .ok s6c ∧
    cell s6a.world 2 2 = 0 ∧ cell s6a.world 3 2 = 48 ∧
    s6a.agents = [(3, 2, 48)] ∧ s6b.agents = [(4, 2, 48)] ∧
    s6c.agents = [(4, 2, 48)] ∧ cell s6b.world 5 2 = 10 ∧
    runN mpmRight uss 2 s5 = .ok s5b ∧ s5b.agents = [(3, 2, 48)] := by
  have e1 : runN mpmRight uss 1 s6 = .ok s6a := by
    rw [runN, runN]
    dsimp only
    exact sim6_1 (uss 0) (hb 0 0).1 (hb 0 0).2
  have e2 : runN mpmRight uss 2 s6 = .ok s6b := by
    rw [runN, e1]
    dsimp only
    exact sim6_2 (uss 1) (hb 1 0).1 (hb 1 0).2
  have e3 : runN mpmRight uss 3 s6 = .ok s6c := by
    rw [runN, e2]
    dsimp only
    exact sim6_3 (uss 2) (hb 2 0).1 (hb 2 0).2
  have e5 : runN mpmRight uss 2 s5 = .ok s5b := by
    rw [runN, runN, runN]
    dsimp only
    rw [sim5_1 (uss 0) (hb 0 0).1 (hb 0 0).2]
    dsimp only
    exact sim5_2 (uss 1) (hb 1 0).1 (hb 1 0).2
  exact ⟨e1, e2, e3, by decide, by decide, rfl, rfl, rfl, by decide, e5, rfl⟩

/-- Witness for the amended C2 at the concrete all-zero draw stream. -/
theorem claim_C2_end_to_end_witness :
    runN mpmRight (fun _ _ => 0) 3 s6 = .ok s6c := by
  exact (claim_C2_end_to_end (fun _ _ => 0) (fun k i => by norm_num)).2.2.1

/-- C3 as the code behaves: for every 3x3 matrix of non-negative entries
whose total mass does not exceed the draw u, the accumulating scan never
fires, and generateDirection falls off the end of its loops -- the JS
function returns undefined, modelled none, and in particular does not
return the (0, 0) stay direction prescribed by the spec; the caller then
throws when destructuring the undefined result. -/
theorem claim_C3_sampler_fallthrough
    (p00 p01 p02 p10 p11 p12 p20 p21 p22 u : ℚ)
    (h00 : 0 ≤ p00) (h01 : 0 ≤ p01) (h02 : 0 ≤ p02)
    (h10 : 0 ≤ p10) (h11 : 0 ≤ p11) (h12 : 0 ≤ p12)
    (h20 : 0 ≤ p20) (h21 : 0 ≤ p21) (h22 : 0 ≤ p22)
    (hsum : p00 + p01 + p02 + p10 + p11 + p12 + p20 + p21 + p22 ≤ u) :
    generateDirection [[p00,p01,p02],[p10,p11,p12],[p20,p21,p22]] u = none ∧
      generateDirection [[p00,p01,p02],[p10,p11,p12],[p20,p21,p22]] u ≠
        some (0, 0) := by
  have hz : generateDirection [[p00,p01,p02],[p10,p11,p12],[p20,p21,p22]] u = none := by
    simp only [generateDirection, gdRows, gdRow]
    rw [if_neg (not_lt.mpr (by linarith)), if_neg (not_lt.mpr (by linarith)),
      if_neg (not_lt.mpr (by linarith))]
    dsimp only
    rw [if_neg (not_lt.mpr (by linarith)), if_neg (not_lt.mpr (by linarith)),
      if_neg (not_lt.mpr (by linarith))]
    dsimp only
    rw [if_neg (not_lt.mpr (by linarith)), if_neg (not_lt.mpr (by linarith)),
      if_neg (not_lt.mpr (by linarith))]
  exact ⟨hz, by rw [hz]; exact fun h => Option.noConfusion h⟩

/-- Witness for C3 at the all-zero matrix and draw 0, the failing input of
the claim. -/
theorem claim_C3_sampler_fallthrough_witness :
    generateDirection [[0,0,0],[0,0,0],[0,0,0]] (0:ℚ) = none := by
  exact (claim_C3_sampler_fallthrough 0 0 0 0 0 0 0 0 0 0
    (by norm_num) (by norm_num) (by norm_num) (by norm_num) (by norm_num)
    (by norm_num) (by norm_num) (by norm_num) (by norm_num) (by norm_num)).1

/-- The step loop always throws when some agent in the remaining list has
no movement probability matrix: whichever failure comes first, the loop
ends in an error and never returns a rebuilt registry. -/
theorem stepLoop_missing_any (mpm : MPM) (us : Nat → ℚ) :
    ∀ (rest : List Agent) (i : Nat) (w : World) (b : List Agent),
      (∃ a ∈ rest, mpm a.2.2 = none) →
      ∃ w2, stepLoop mpm us i w b rest = .error w2 := by
  intro rest
  induction rest with
  | nil =>
    rintro i w b ⟨a, ha, _⟩
    exact absurd ha (List.not_mem_nil a)
  | cons a rest ih =>
    rintro i w b ⟨c, hc, hcm⟩
    obtain ⟨x, y, ty⟩ := a
    rcases hm : mpm ty with _ | m
    · exact ⟨w, stepLoop_missing us i w b rest hm⟩
    · have hcrest : ∃ c ∈ rest, mpm c.2.2 = none := by
        rcases List.mem_cons.mp hc with rfl | h2
        · rw [show ((x, y, ty) : Agent).2.2 = ty from rfl, hm] at hcm
          exact absurd hcm (by simp)
        · exact ⟨c, h2, hcm⟩
      rcases hgd : generateDirection m (us i) with _ | d
      · refine ⟨w, ?_⟩
        rw [stepLoop, hm]
        dsimp only
        rw [hgd]
      · obtain ⟨dx, dy⟩ := d
        rcases hrc : readCell w (x + dx) (y + dy) with e | v
        · refine ⟨w, ?_⟩
          rw [stepLoop, hm]
          dsimp only
          rw [hgd]
          dsimp only
          rw [hrc]
        · by_cases hv : v = some 0
          · subst hv
            rcases hrs : readCell w x y with e | sv
            · refine ⟨w, ?_⟩
              rw [stepLoop, hm]
              dsimp only
              rw [hgd]
              dsimp only
              rw [hrc]
              dsimp only
              rw [if_pos rfl, hrs]
            · rcases sv with _ | sv2
              · refine ⟨w, ?_⟩
                rw [stepLoop, hm]
                dsimp only
                rw [hgd]
                dsimp only
                rw [hrc]
                dsimp only
                rw [if_pos rfl, hrs]
              · rw [stepLoop_move us i w b rest hm hgd hrc hrs]
                exact ih _ _ _ hcrest
          · have heq : stepLoop mpm us i w b ((x, y, ty) :: rest) =
                stepLoop mpm us (i + 1) w (b ++ [(x, y, ty)]) rest := by
              rw [stepLoop, hm]
              dsimp only
              rw [hgd]
              dsimp only
              rw [hrc]
              dsimp only
              rw [if_neg hv]
            rw [heq]
            exact ih _ _ _ hcrest

/-- C5 amended: if some agent in the registry has a type with no MPM
entry, the simulate() call throws (it never silently skips the agent and
never completes), and the registry and tick are left unchanged from the
pre-step state; however, grid writes made for agents processed before the
throw persist, so the grid can be left partially updated and
desynchronized from the registry. -/
theorem claim_C5_configuration_error (mpm : MPM) (us : Nat → ℚ) (s : SimState)
    (h : ∃ a ∈ s.agents, mpm a.2.2 = none) :
    (simulateJS mpm us s).1 = false ∧
      (simulateJS mpm us s).2.agents = s.agents ∧
      (simulateJS mpm us s).2.t = s.t := by
  obtain ⟨w2, hw2⟩ := stepLoop_missing_any mpm us s.agents 0 s.world [] h
  unfold simulateJS simulate
  rw [hw2]
  exact ⟨rfl, rfl, rfl⟩

/-- Witness for the amended C5: one agent of type 41 with no entry in
mpmRight; the call reports failure and leaves registry and tick alone. -/
theorem claim_C5_configuration_error_witness :
    (simulateJS mpmRight (fun _ => 0)
        ⟨[[10,10,10],[10,41,10],[10,10,10]], [(1,1,41)], 5⟩).1 = false ∧
      (simulateJS mpmRight (fun _ => 0)
        ⟨[[10,10,10],[10,41,10],[10,10,10]], [(1,1,41)], 5⟩).2.agents = [(1,1,41)] ∧
      (simulateJS mpmRight (fun _ => 0)
        ⟨[[10,10,10],[10,41,10],[10,10,10]], [(1,1,41)], 5⟩).2.t = 5 := by
  exact claim_C5_configuration_error mpmRight (fun _ => 0)
    ⟨[[10,10,10],[10,41,10],[10,10,10]], [(1,1,41)], 5⟩
    ⟨(1,1,41), by simp, rfl⟩

/-- C5 counterexample: agent (1,1,48) is processed first and moves, then
agent (3,1,41) has no MPM entry and the call throws; the registry and tick
are unchanged, but the grid is NOT left unchanged from the pre-step state:
it keeps the first agent's move, so grid and registry end up
desynchronized, refuting the claimed atomicity. -/
theorem claim_C5_configuration_error_counterexample :
    simulateJS mpmRight (fun _ => 0) s5c = (false, s5c2) ∧
      s5c2.world ≠ s5c.world ∧ s5c2.agents = s5c.agents ∧ s5c2.t = s5c.t := by
  refine ⟨?_, by decide, rfl, rfl⟩
  unfold simulateJS simulate
  rw [show s5c.agents = [((1:Int),(1:Int),(48:Nat)), ((3:Int),(1:Int),(41:Nat))] from rfl]
  rw [stepLoop_move (fun _ => 0) 0 s5c.world [] [((3:Int),(1:Int),(41:Nat))]
    (show mpmRight 48 = some [[0,0,0],[0,0,1],[0,0,0]] from rfl)
    (gdRight 0 (by norm_num) (by norm_num))
    (show readCell s5c.world (1 + 1) (1 + 0) = .ok (some 0) from rfl)
    (show readCell s5c.world 1 1 = .ok (some 48) from rfl)]
  rw [stepLoop_missing (fun _ => 0) 1 _ _ []
    (show mpmRight 41 = none from rfl)]
  rfl

/-- C8: sequential within-tick update. In the concrete two-agent
configuration s8, agent A = (1,1,48) is processed first and moves right to
(2,1); agent B = (1,2,41), later in iteration order, then successfully
moves up into (1,1) -- the cell A occupied when the step began and vacated
earlier in the same step -- so updates are sequential against the mutated
grid, not simultaneous against a pre-step snapshot. -/
theorem claim_C8_sequential_update :
    s8.agents = [(1, 1, 48), (1, 2, 41)] ∧
    cell s8.world 1 1 = 48 ∧
    simulate mpmAB (fun _ => 0) s8 = .ok s8a ∧
    s8a.agents = [(2, 1, 48), (1, 1, 41)] ∧
    cell s8a.world 1 1 = 41 := by
  refine ⟨rfl, by decide, ?_, rfl, by decide⟩
  unfold simulate
  rw [show s8.agents = [((1:Int),(1:Int),(48:Nat)), ((1:Int),(2:Int),(41:Nat))] from rfl]
  rw [stepLoop_move (fun _ => 0) 0 s8.world [] [((1:Int),(2:Int),(41:Nat))]
    (show mpmAB 48 = some [[0,0,0],[0,0,1],[0,0,0]] from rfl)
    (gdRight 0 (by norm_num) (by norm_num))
    (show readCell s8.world (1 + 1) (1 + 0) = .ok (some 0) from rfl)
    (show readCell s8.world 1 1 = .ok (some 48) from rfl)]
  rw [stepLoop_move (fun _ => 0) 1 _ _ []
    (show mpmAB 41 = some [[0,1,0],[0,0,0],[0,0,0]] from rfl)
    (gdUp 0 (by norm_num) (by norm_num))
    (show readCell (setCell (setCell s8.world (1 + 1) (1 + 0) 48) 1 1 0)
      (1 + 0) (2 + -1) = .ok (some 0) from rfl)
    (show readCell (setCell (setCell s8.world (1 + 1) (1 + 0) 48) 1 1 0)
      1 2 = .ok (some 41) from rfl)]
  rw [stepLoop_nil]
  rfl

/-- C6: wall blocking and frame effect. When the head agent's sampled
destination cell holds any nonzero value (wall, filter code, or another
agent), the step pushes the agent back unchanged at its original position
and continues with the very same grid: no grid write happens for that
agent and the destination cell's value is untouched. -/
theorem claim_C6_wall_blocking {mpm : MPM} {m : MPMat} {dx dy : Int} {v : Nat}
    (us : Nat → ℚ) (i : Nat) (w : World) (b : List Agent) {x y : Int} {ty : Nat}
    (rest : List Agent)
    (hm : mpm ty = some m) (hgd : generateDirection m (us i) = some (dx, dy))
    (hdest : readCell w (x + dx) (y + dy) = .ok (some v)) (hv : v ≠ 0) :
    stepLoop mpm us i w b ((x, y, ty) :: rest) =
      stepLoop mpm us (i + 1) w (b ++ [(x, y, ty)]) rest :=
  stepLoop_blocked us i w b rest hm hgd hdest hv

/-- Witness for C6: the type-48 agent at (4, 2) of the 6x6 scenario is
blocked by the wall value 10 at (5, 2). -/
theorem claim_C6_wall_blocking_witness :
    stepLoop mpmRight (fun _ => 0) 0 s6b.world [] [((4:Int), (2:Int), (48:Nat))] =
      stepLoop mpmRight (fun _ => 0) 1 s6b.world
        ([] ++ [((4:Int), (2:Int), (48:Nat))]) [] :=
  claim_C6_wall_blocking (fun _ => 0) 0 s6b.world [] []
    (show mpmRight 48 = some [[0,0,0],[0,0,1],[0,0,0]] from rfl)
    (gdRight 0 (by norm_num) (by norm_num))
    (show readCell s6b.world (4 + 1) (2 + 0) = .ok (some 10) from rfl)
    (by decide)

/-- The step loop of simulate() appends exactly one record per processed
agent, so a successful pass grows the accumulator by the number of agents
processed. -/
theorem stepLoop_length (mpm : MPM) (us : Nat → ℚ) :
    ∀ (rest : List Agent) (i : Nat) (w : World) (b : List Agent)
      (w2 : World) (b2 : List Agent),
      stepLoop mpm us i w b rest = .ok (w2, b2) →
      b2.length = b.length + rest.length := by
  intro rest
  induction rest with
  | nil =>
    intro i w b w2 b2 hstep
    rw [stepLoop] at hstep
    obtain ⟨e1, e2⟩ : w = w2 ∧ b = b2 := by simpa using hstep
    subst e2
    simp
  | cons a rest ih =>
    intro i w b w2 b2 hstep
    obtain ⟨x, y, ty⟩ := a
    rw [stepLoop] at hstep
    rcases hm : mpm ty with _ | m
    · rw [hm] at hstep; exact Except.noConfusion hstep
    · rw [hm] at hstep
      dsimp only at hstep
      rcases hgd : generateDirection m (us i) with _ | d
      · rw [hgd] at hstep; exact Except.noConfusion hstep
      · obtain ⟨dx, dy⟩ := d
        rw [hgd] at hstep
        dsimp only at hstep
        rcases hrc : readCell w (x + dx) (y + dy) with e | v
        · rw [hrc] at hstep; exact Except.noConfusion hstep
        · rw [hrc] at hstep
          dsimp only at hstep
          by_cases hv : v = some 0
          · subst hv
            rw [if_pos rfl] at hstep
            rcases hrs : readCell w x y with e | sv
            · rw [hrs] at hstep; exact Except.noConfusion hstep
            · rcases sv with _ | sv2
              · rw [hrs] at hstep; exact Except.noConfusion hstep
              · rw [hrs] at hstep
                dsimp only at hstep
                have hl := ih _ _ _ _ _ hstep
                simp only [List.length_append, List.length_cons, List.length_nil] at hl ⊢
                omega
          · rw [if_neg hv] at hstep
            have hl := ih _ _ _ _ _ hstep
            simp only [List.length_append, List.length_cons, List.length_nil] at hl ⊢
            omega

/-- One successful simulate() call keeps the registry length. -/
theorem simulate_length {mpm : MPM} {us : Nat → ℚ} {s s2 : SimState}
    (h : simulate mpm us s = .ok s2) :
    s2.agents.length = s.agents.length := by
  unfold simulate at h
  rcases hsl : stepLoop mpm us 0 s.world [] s.agents with e | p
  · rw [hsl] at h; exact Except.noConfusion h
  · obtain ⟨w2, b2⟩ := p
    rw [hsl] at h
    dsimp only at h
    have hs2 : s2 = ⟨w2, b2, s.t + 1⟩ := (Except.ok.inj h).symm
    subst hs2
    have := stepLoop_length mpm us s.agents 0 s.world [] w2 b2 hsl
    simpa using this

/-- C7: mass conservation in the no-filter engine. For every initial
registry and every number of successful step calls, the registry keeps
exactly its initial number of entries -- each pass appends exactly one
record per processed agent and never creates or destroys agents. The
second conjunct states the same for one call of simulate_v0_2() from
25g32.js, whose agent loop is the identical code. -/
theorem claim_C7_mass_conservation :
    (∀ (mpm : MPM) (uss : Nat → Nat → ℚ) (n : Nat) (s s2 : SimState),
      runN mpm uss n s = .ok s2 → s2.agents.length = s.agents.length) ∧
    (∀ (mpm : MPM) (us : Nat → ℚ) (s s2 : SimState),
      simulate_v0_2 mpm us s = .ok s2 → s2.agents.length = s.agents.length) := by
  constructor
  · intro mpm uss n s s2 h
    induction n generalizing s2 with
    | zero =>
      rw [runN] at h
      have hs2 : s2 = s := (Except.ok.inj h).symm
      subst hs2
      rfl
    | succ n ih =>
      rw [runN] at h
      rcases hr : runN mpm uss n s with e | s1
      · rw [hr] at h; exact Except.noConfusion h
      · rw [hr] at h
        dsimp only at h
        rw [simulate_length h]
        exact ih s1 hr
  · intro mpm us s s2 h
    exact simulate_length h

/-- Witness for C7: the one-agent scenario keeps exactly one agent after a
step. -/
theorem claim_C7_mass_conservation_witness :
    sEx1.agents.length = sEx0.agents.length :=
  claim_C7_mass_conservation.1 mpmRight (fun _ _ => 0) 1 sEx0 sEx1 runEx

/-- C9: zero-probability directions are never sampled. For every 3x3
matrix of non-negative entries and every draw u in [0, 1), if
generateDirection returns a direction (dx, dy), then the matrix entry at
row dy+1, column dx+1 is strictly positive: the scan fires only when
adding that entry pushed the running total past u, and the total before it
was at most u. -/
theorem claim_C9_zero_prob_never_sampled
    (p00 p01 p02 p10 p11 p12 p20 p21 p22 u : ℚ) (dx dy : Int)
    (h00 : 0 ≤ p00) (h01 : 0 ≤ p01) (h02 : 0 ≤ p02)
    (h10 : 0 ≤ p10) (h11 : 0 ≤ p11) (h12 : 0 ≤ p12)
    (h20 : 0 ≤ p20) (h21 : 0 ≤ p21) (h22 : 0 ≤ p22)
    (hu0 : 0 ≤ u) (hu1 : u < 1)
    (hgd : generateDirection [[p00,p01,p02],[p10,p11,p12],[p20,p21,p22]] u =
      some (dx, dy)) :
    0 < ([[p00,p01,p02],[p10,p11,p12],[p20,p21,p22]].getD (dy + 1).toNat []).getD
      (dx + 1).toNat 0 := by
  simp only [generateDirection, gdRows, gdRow] at hgd
  by_cases c1 : 0 + p00 > u
  · rw [if_pos c1] at hgd
    dsimp only at hgd
    obtain ⟨rfl, rfl⟩ : ((0:Nat):Int) - 1 = dx ∧ ((0:Nat):Int) - 1 = dy := by
      have h := Option.some.inj hgd
      exact ⟨congrArg Prod.fst h, congrArg Prod.snd h⟩
    show (0:ℚ) < p00
    linarith
  · rw [if_neg c1] at hgd
    by_cases c2 : 0 + p00 + p01 > u
    · rw [if_pos c2] at hgd
      dsimp only at hgd
      obtain ⟨rfl, rfl⟩ : ((0+1:Nat):Int) - 1 = dx ∧ ((0:Nat):Int) - 1 = dy := by
        have h := Option.some.inj hgd
        exact ⟨congrArg Prod.fst h, congrArg Prod.snd h⟩
      show (0:ℚ) < p01
      linarith [not_lt.mp c1]
    · rw [if_neg c2] at hgd
      by_cases c3 : 0 + p00 + p01 + p02 > u
      · rw [if_pos c3] at hgd
        dsimp only at hgd
        obtain ⟨rfl, rfl⟩ : ((0+1+1:Nat):Int) - 1 = dx ∧ ((0:Nat):Int) - 1 = dy := by
          have h := Option.some.inj hgd
          exact ⟨congrArg Prod.fst h, congrArg Prod.snd h⟩
        show (0:ℚ) < p02
        linarith [not_lt.mp c2]
      · rw [if_neg c3] at hgd
        dsimp only at hgd
        by_cases c4 : 0 + p00 + p01 + p02 + p10 > u
        · rw [if_pos c4] at hgd
          dsimp only at hgd
          obtain ⟨rfl, rfl⟩ : ((0:Nat):Int) - 1 = dx ∧ ((0+1:Nat):Int) - 1 = dy := by
            have h := Option.some.inj hgd
            exact ⟨congrArg Prod.fst h, congrArg Prod.snd h⟩
          show (0:ℚ) < p10
          linarith [not_lt.mp c3]
        · rw [if_neg c4] at hgd
          by_cases c5 : 0 + p00 + p01 + p02 + p10 + p11 > u
          · rw [if_pos c5] at hgd
            dsimp only at hgd
            obtain ⟨rfl, rfl⟩ : ((0+1:Nat):Int) - 1 = dx ∧ ((0+1:Nat):Int) - 1 = dy := by
              have h := Option.some.inj hgd
              exact ⟨congrArg Prod.fst h, congrArg Prod.snd h⟩
            show (0:ℚ) < p11
            linarith [not_lt.mp c4]
          · rw [if_neg c5] at hgd
            by_cases c6 : 0 + p00 + p01 + p02 + p10 + p11 + p12 > u
            · rw [if_pos c6] at hgd
              dsimp only at hgd
              obtain ⟨rfl, rfl⟩ : ((0+1+1:Nat):Int) - 1 = dx ∧ ((0+1:Nat):Int) - 1 = dy := by
                have h := Option.some.inj hgd
                exact ⟨congrArg Prod.fst h, congrArg Prod.snd h⟩
              show (0:ℚ) < p12
              linarith [not_lt.mp c5]
            · rw [if_neg c6] at hgd
              dsimp only at hgd
              by_cases c7 : 0 + p00 + p01 + p02 + p10 + p11 + p12 + p20 > u
              · rw [if_pos c7] at hgd
                dsimp only at hgd
                obtain ⟨rfl, rfl⟩ :
                    ((0:Nat):Int) - 1 = dx ∧ ((0+1+1:Nat):Int) - 1 = dy := by
                  have h := Option.some.inj hgd
                  exact ⟨congrArg Prod.fst h, congrArg Prod.snd h⟩
                show (0:ℚ) < p20
                linarith [not_lt.mp c6]
              · rw [if_neg c7] at hgd
                by_cases c8 : 0 + p00 + p01 + p02 + p10 + p11 + p12 + p20 + p21 > u
                · rw [if_pos c8] at hgd
                  dsimp only at hgd
                  obtain ⟨rfl, rfl⟩ :
                      ((0+1:Nat):Int) - 1 = dx ∧ ((0+1+1:Nat):Int) - 1 = dy := by
                    have h := Option.some.inj hgd
                    exact ⟨congrArg Prod.fst h, congrArg Prod.snd h⟩
                  show (0:ℚ) < p21
                  linarith [not_lt.mp c7]
                · rw [if_neg c8] at hgd
                  by_cases c9 :
                      0 + p00 + p01 + p02 + p10 + p11 + p12 + p20 + p21 + p22 > u
                  · rw [if_pos c9] at hgd
                    dsimp only at hgd
                    obtain ⟨rfl, rfl⟩ :
                        ((0+1+1:Nat):Int) - 1 = dx ∧ ((0+1+1:Nat):Int) - 1 = dy := by
                      have h := Option.some.inj hgd
                      exact ⟨congrArg Prod.fst h, congrArg Prod.snd h⟩
                    show (0:ℚ) < p22
                    linarith [not_lt.mp c8]
                  · rw [if_neg c9] at hgd
                    dsimp only at hgd
                    exact absurd hgd (by simp)

/-- Witness for C9: the always-right matrix at draw 0 yields (1, 0), and
the entry at row 1, column 2 is the positive 1. -/
theorem claim_C9_zero_prob_never_sampled_witness :
    0 < ([[(0:ℚ),0,0],[0,0,1],[0,0,0]].getD ((0:Int) + 1).toNat []).getD
      ((1:Int) + 1).toNat 0 :=
  claim_C9_zero_prob_never_sampled 0 0 0 0 0 1 0 0 0 0 1 0
    (by norm_num) (by norm_num) (by norm_num) (by norm_num) (by norm_num)
    (by norm_num) (by norm_num) (by norm_num) (by norm_num) (by norm_num)
    (by norm_num) (gdRight 0 (by norm_num) (by norm_num))

/-- Bounds transfer between grids of equal height. -/
theorem inB_len {w w2 : World} {W : Nat} {x y : Int} (h : InB w W x y)
    (hl : w2.length = w.length) : InB w2 W x y := by
  obtain ⟨a, b, c, d⟩ := h
  exact ⟨a, b, c, by rw [hl]; exact d⟩

/-- A get? hit in a pairwise-distinct list splits it at exactly that
index, with no other element equal to the hit value. -/
theorem split_at_get {ps : List Int} {f : Nat} {v : Int}
    (h : ps.get? f = some v) (hpw : ps.Pairwise (· ≠ ·)) :
    ∃ P1 P2, ps = P1 ++ v :: P2 ∧ P1.length = f ∧
      (∀ q ∈ P1, q ≠ v) ∧ (∀ q ∈ P2, q ≠ v) := by
  induction ps generalizing f with
  | nil => simp at h
  | cons p ps ih =>
    cases f with
    | zero =>
      have hv : p = v := by simpa using h
      subst hv
      refine ⟨[], ps, by simp, rfl, by simp, ?_⟩
      intro q hq he
      exact (List.pairwise_cons.mp hpw).1 q hq he.symm
    | succ f =>
      have h2 : ps.get? f = some v := by simpa using h
      obtain ⟨P1, P2, he, hl, h1, hp2⟩ := ih h2 (List.pairwise_cons.mp hpw).2
      refine ⟨p :: P1, P2, by simp [he], by simp [hl], ?_, hp2⟩
      intro q hq
      rcases List.mem_cons.mp hq with rfl | hq2
      · exact (List.pairwise_cons.mp hpw).1 v
          (by rw [he]; exact List.mem_append.mpr (Or.inr (by simp)))
      · exact h1 q hq2

/-- Full evaluation of one simulate2() call on a single-agent registry
whose move lands on the column of the f-th filter: the f-th counter is
incremented; on a type match the just-moved agent is dropped and its cell
cleared, otherwise the state is exactly as after the plain move. -/
theorem simulate2_single_hit {mpm : MPM} {m : MPMat} {dx dy : Int}
    (fp : List Int) (ft : List Nat) (us : Nat → ℚ)
    (w : World) (cnt : List Nat) (t : Int) (x y : Int) (ty : Nat) (f : Nat)
    (hm : mpm ty = some m) (hgd : generateDirection m (us 0) = some (dx, dy))
    (hdest : readCell w (x + dx) (y + dy) = .ok (some 0))
    (hsrc : readCell w x y = .ok (some ty))
    (hpw : fp.Pairwise (· ≠ ·)) (hf : fp.get? f = some (x + dx)) :
    simulate2 mpm fp ft us ⟨w, [(x, y, ty)], cnt, t⟩ =
      .ok (if ft.get? f = some ty then
            ⟨setCell (setCell (setCell w (x + dx) (y + dy) ty) x y 0)
              (x + dx) (y + dy) 0, [], cnt.set f (cnt.getD f 0 + 1), t + 1⟩
           else
            ⟨setCell (setCell w (x + dx) (y + dy) ty) x y 0,
              [(x + dx, y + dy, ty)], cnt.set f (cnt.getD f 0 + 1), t + 1⟩) := by
  obtain ⟨P1, P2, hps, hl, hp1, hp2⟩ := split_at_get hf hpw
  unfold simulate2
  rw [show (Sim2State.mk w [(x, y, ty)] cnt t).agents = [(x, y, ty)] from rfl]
  rw [stepLoop2_move fp ft us 0 w cnt [] [] hm hgd hdest hsrc]
  dsimp only
  rw [hps, filterLoop_hit (x + dx) (y + dy) ty ft P1 P2 0 cnt _ _ hp1 hp2, hl]
  simp only [Nat.zero_add]
  by_cases hft : ft.get? f = some ty
  · rw [if_pos hft, if_pos hft]
    dsimp only
    rw [stepLoop2_nil]
    rfl
  · rw [if_neg hft, if_neg hft]
    dsimp only
    rw [stepLoop2_nil]
    rfl

/-- C4: filter behavior. A single agent whose sampled move succeeds onto
the column of the f-th configured filter (filter positions pairwise
distinct, grid rectangular, source cell holding the agent type):
the f-th counter is incremented by exactly 1; if the agent type equals
that filter's type, the agent is removed from the rebuilt registry in that
same step and the destination cell is reset to 0; if the type differs, the
agent stays in the registry at the destination, whose cell now holds its
type. -/
theorem claim_C4_filter_behavior {mpm : MPM} {m : MPMat} {dx dy : Int} {W : Nat}
    (fp : List Int) (ft : List Nat) (us : Nat → ℚ)
    (w : World) (cnt : List Nat) (t : Int) (x y : Int) (ty : Nat) (f : Nat)
    (hR : Rect w W)
    (hm : mpm ty = some m) (hgd : generateDirection m (us 0) = some (dx, dy))
    (hdest : readCell w (x + dx) (y + dy) = .ok (some 0))
    (hsrc : readCell w x y = .ok (some ty))
    (hpw : fp.Pairwise (· ≠ ·)) (hf : fp.get? f = some (x + dx)) :
    (simulate2 mpm fp ft us ⟨w, [(x, y, ty)], cnt, t⟩).map Sim2State.filterCount =
      .ok (cnt.set f (cnt.getD f 0 + 1)) ∧
    (ft.get? f = some ty →
      (simulate2 mpm fp ft us ⟨w, [(x, y, ty)], cnt, t⟩).map Sim2State.agents =
        .ok [] ∧
      (simulate2 mpm fp ft us ⟨w, [(x, y, ty)], cnt, t⟩).map
        (fun s2 => cell s2.world (x + dx) (y + dy)) = .ok 0) ∧
    (ft.get? f ≠ some ty →
      (simulate2 mpm fp ft us ⟨w, [(x, y, ty)], cnt, t⟩).map Sim2State.agents =
        .ok [(x + dx, y + dy, ty)] ∧
      (simulate2 mpm fp ft us ⟨w, [(x, y, ty)], cnt, t⟩).map
        (fun s2 => cell s2.world (x + dx) (y + dy)) = .ok ty) := by
  rw [simulate2_single_hit fp ft us w cnt t x y ty f hm hgd hdest hsrc hpw hf]
  obtain ⟨hdInB, hcd⟩ := readCell_ok_some hR hdest
  obtain ⟨hsInB, hcs⟩ := readCell_ok_some hR hsrc
  by_cases hft : ft.get? f = some ty
  · rw [if_pos hft]
    refine ⟨rfl, fun _ => ⟨rfl, ?_⟩, fun hc => absurd hft hc⟩
    have hR1 : Rect (setCell (setCell w (x + dx) (y + dy) ty) x y 0) W :=
      rect_setCell (rect_setCell hR _ _ _) _ _ _
    have hlen : (setCell (setCell w (x + dx) (y + dy) ty) x y 0).length = w.length := by
      rw [length_setCell, length_setCell]
    simp only [Except.map]
    rw [cell_setCell_same hR1 (inB_len hdInB hlen) 0]
  · rw [if_neg hft]
    refine ⟨rfl, fun hc => absurd hc hft, fun _ => ⟨rfl, ?_⟩⟩
    simp only [Except.map]
    by_cases hxy : x + dx = x ∧ y + dy = y
    · obtain ⟨hx, hy⟩ := hxy
      rw [hx, hy] at hcd
      have hty0 : ty = 0 := by rw [← hcs, hcd]
      have hR1 : Rect (setCell w (x + dx) (y + dy) ty) W := rect_setCell hR _ _ _
      have hlen : (setCell w (x + dx) (y + dy) ty).length = w.length := by
        rw [length_setCell]
      rw [hx, hy] at hR1 hlen hdInB ⊢
      rw [cell_setCell_same hR1 (inB_len hdInB hlen) 0]
      exact congrArg _ hty0.symm
    · push_neg at hxy
      have hne : x + dx ≠ x ∨ y + dy ≠ y := by
        by_cases hx : x + dx = x
        · exact Or.inr (hxy hx)
        · exact Or.inl hx
      rw [cell_setCell_ne hne 0, cell_setCell_same hR hdInB ty]

/-- Witness for C4 at a concrete removal configuration: a type-48 agent
steps right from (2, 1) onto filter column 3 of matching type 48 and is
removed, with the counter going from 0 to 1 and the cell cleared. -/
theorem claim_C4_filter_behavior_witness :
    (simulate2 mpmRight [3] [48] (fun _ => 0)
      ⟨[[10,10,10,10,10,10],[10,0,48,0,0,10],[10,10,10,10,10,10]],
        [(2,1,48)], [0], 0⟩).map Sim2State.filterCount =
      .ok (([0] : List Nat).set 0 (([0] : List Nat).getD 0 0 + 1)) ∧
    (([48] : List Nat).get? 0 = some 48 →
      (simulate2 mpmRight [3] [48] (fun _ => 0)
        ⟨[[10,10,10,10,10,10],[10,0,48,0,0,10],[10,10,10,10,10,10]],
          [(2,1,48)], [0], 0⟩).map Sim2State.agents = .ok [] ∧
      (simulate2 mpmRight [3] [48] (fun _ => 0)
        ⟨[[10,10,10,10,10,10],[10,0,48,0,0,10],[10,10,10,10,10,10]],
          [(2,1,48)], [0], 0⟩).map
        (fun s2 => cell s2.world (2 + 1) (1 + 0)) = .ok 0) ∧
    (([48] : List Nat).get? 0 ≠ some 48 →
      (simulate2 mpmRight [3] [48] (fun _ => 0)
        ⟨[[10,10,10,10,10,10],[10,0,48,0,0,10],[10,10,10,10,10,10]],
          [(2,1,48)], [0], 0⟩).map Sim2State.agents = .ok [(2 + 1, 1 + 0, 48)] ∧
      (simulate2 mpmRight [3] [48] (fun _ => 0)
        ⟨[[10,10,10,10,10,10],[10,0,48,0,0,10],[10,10,10,10,10,10]],
          [(2,1,48)], [0], 0⟩).map
        (fun s2 => cell s2.world (2 + 1) (1 + 0)) = .ok 48) :=
  claim_C4_filter_behavior [3] [48] (fun _ => 0)
    [[10,10,10,10,10,10],[10,0,48,0,0,10],[10,10,10,10,10,10]]
    [0] 0 2 1 48 0
    (show Rect _ 6 by decide)
    (show mpmRight 48 = some [[0,0,0],[0,0,1],[0,0,0]] from rfl)
    (gdRight 0 (by norm_num) (by norm_num))
    (show readCell _ (2 + 1) (1 + 0) = .ok (some 0) from rfl)
    (show readCell _ 2 1 = .ok (some 48) from rfl)
    (by decide)
    (show ([3] : List Int).get? 0 = some (2 + 1) from rfl)

/-- C10: filter counters count entries into the column, not crossings. A
single agent already standing on the f-th filter column whose sampled
direction is purely vertical (dx = 0) and whose move succeeds increments
that filter's counter by exactly 1, and -- its type differing from the
filter type -- stays in the registry at the new position on the same
column, without ever having crossed the filter. -/
theorem claim_C10_filter_counts_column_entry {mpm : MPM} {m : MPMat} {dy : Int}
    (fp : List Int) (ft : List Nat) (us : Nat → ℚ)
    (w : World) (cnt : List Nat) (t : Int) (x y : Int) (ty : Nat) (f : Nat)
    (hm : mpm ty = some m) (hgd : generateDirection m (us 0) = some (0, dy))
    (hdest : readCell w (x + 0) (y + dy) = .ok (some 0))
    (hsrc : readCell w x y = .ok (some ty))
    (hpw : fp.Pairwise (· ≠ ·)) (hf : fp.get? f = some x)
    (hft : ft.get? f ≠ some ty) :
    (simulate2 mpm fp ft us ⟨w, [(x, y, ty)], cnt, t⟩).map Sim2State.filterCount =
      .ok (cnt.set f (cnt.getD f 0 + 1)) ∧
    (simulate2 mpm fp ft us ⟨w, [(x, y, ty)], cnt, t⟩).map Sim2State.agents =
      .ok [(x, y + dy, ty)] := by
  have hf2 : fp.get? f = some (x + 0) := by simpa using hf
  rw [simulate2_single_hit fp ft us w cnt t x y ty f hm hgd hdest hsrc hpw hf2]
  rw [if_neg hft]
  constructor
  · simp [Except.map]
  · simp [Except.map]

/-- Witness for C10: a type-48 agent at (3, 1) on filter column 3 of
non-matching type 47 moves straight down; the counter goes from 5 to 6 and
the agent remains registered at (3, 2). -/
theorem claim_C10_filter_counts_column_entry_witness :
    (simulate2 mpmDown [3] [47] (fun _ => 0)
      ⟨[[10,10,10,10,10,10],[10,0,0,48,0,10],[10,0,0,0,0,10],[10,10,10,10,10,10]],
        [(3,1,48)], [5], 0⟩).map Sim2State.filterCount =
      .ok (([5] : List Nat).set 0 (([5] : List Nat).getD 0 0 + 1)) ∧
    (simulate2 mpmDown [3] [47] (fun _ => 0)
      ⟨[[10,10,10,10,10,10],[10,0,0,48,0,10],[10,0,0,0,0,10],[10,10,10,10,10,10]],
        [(3,1,48)], [5], 0⟩).map Sim2State.agents = .ok [(3, 1 + 1, 48)] :=
  claim_C10_filter_counts_column_entry [3] [47] (fun _ => 0)
    [[10,10,10,10,10,10],[10,0,0,48,0,10],[10,0,0,0,0,10],[10,10,10,10,10,10]]
    [5] 0 3 1 48 0
    (show mpmDown 48 = some [[0,0,0],[0,0,0],[0,1,0]] from rfl)
    (gdDown 0 (by norm_num) (by norm_num))
    (show readCell _ (3 + 0) (1 + 1) = .ok (some 0) from rfl)
    (show readCell _ 3 1 = .ok (some 48) from rfl)
    (by decide)
    (show ([3] : List Int).get? 0 = some 3 from rfl)
    (by decide)

end Butiran
